import Mathlib

/-!
Verification of the caching proxy (`app.py`) against its specification.

The development shallowly embeds the program: pure Python functions become
Lean functions over `String`/`List`, the filesystem cache becomes an explicit
map from paths to files, the HTML document becomes an explicit tree (the
HTML parser and serializer are external capabilities, as the specification
itself prescribes), and the request handler becomes a function from the
request, the filesystem and the fetched response to the reply and the new
filesystem.  Library calls made by the program (`urllib.parse.quote`,
`urllib.parse.urljoin`, `os.path.join`, ...) are modelled by Lean functions
that follow the documented behaviour of those libraries on the inputs the
program feeds them.
-/

namespace CachingProxy

/-! ## Python string primitives -/

/-- Characters stripped by Python `str.strip()` (ASCII whitespace). -/
def pyWhitespace (c : Char) : Bool :=
  c = ' ' || c = '\t' || c = '\n' || c = '\r' || c = '\x0b' || c = '\x0c'

/-- Model of Python `str.strip()` on a character list. -/
def stripList (l : List Char) : List Char :=
  ((l.dropWhile pyWhitespace).reverse.dropWhile pyWhitespace).reverse

/-- Model of Python `str.strip()`. -/
def pyStrip (s : String) : String := ⟨stripList s.data⟩

/-- Model of Python `str.split(sep)` for a one-character separator:
splits at every occurrence and keeps empty pieces. -/
def splitOnCharL (sep : Char) : List Char → List (List Char)
  | [] => [[]]
  | c :: cs =>
    match splitOnCharL sep cs with
    | [] => [[]]
    | g :: gs => if c = sep then [] :: g :: gs else (c :: g) :: gs

/-- Model of Python `str.split(sep)` for a one-character separator. -/
def pySplitChar (sep : Char) (s : String) : List String :=
  (splitOnCharL sep s.data).map (fun l => ⟨l⟩)

/-- Model of Python `sep.join(pieces)`. -/
def pyJoin (sep : String) : List String → String
  | [] => ""
  | [x] => x
  | x :: y :: xs => x ++ sep ++ pyJoin sep (y :: xs)

/-- Occurrence of `pat` as a contiguous subsequence of `l`. -/
def containsSeq : List Char → List Char → Bool
  | [], pat => pat.isEmpty
  | c :: cs, pat => pat.isPrefixOf (c :: cs) || containsSeq cs pat

/-- Model of the Python substring test `pat in s`. -/
def pyContains (s pat : String) : Bool := containsSeq s.data pat.data

/-- Model of Python `s.startswith(pre)`. -/
def pyStartswith (s pre : String) : Bool := pre.data.isPrefixOf s.data

/-- Model of Python `s.lower()` for the ASCII header values seen here. -/
def pyLower (s : String) : String := ⟨s.data.map Char.toLower⟩

/-- Split at every character satisfying `p`, keeping empty pieces
(the underlying worker of whitespace tokenisation). -/
def splitOnPredL (p : Char → Bool) : List Char → List (List Char)
  | [] => [[]]
  | c :: cs =>
    match splitOnPredL p cs with
    | [] => [[]]
    | g :: gs => if p c then [] :: g :: gs else (c :: g) :: gs

/-! ## Model of `urllib.parse.quote` (default `safe="/"`) -/

/-- Hexadecimal digits, uppercase, as `urllib.parse.quote` emits them. -/
def hexDigits : List Char :=
  ['0', '1', '2', '3', '4', '5', '6', '7', '8', '9', 'A', 'B', 'C', 'D', 'E', 'F']

def hexDigitChar (n : Nat) : Char := hexDigits.getD n '0'

/-- UTF-8 bytes of a character, as Python encodes a str before quoting. -/
def utf8Bytes (c : Char) : List Nat :=
  let n := c.toNat
  if n < 0x80 then [n]
  else if n < 0x800 then [0xC0 + n / 0x40, 0x80 + n % 0x40]
  else if n < 0x10000 then
    [0xE0 + n / 0x1000, 0x80 + n / 0x40 % 0x40, 0x80 + n % 0x40]
  else
    [0xF0 + n / 0x40000, 0x80 + n / 0x1000 % 0x40, 0x80 + n / 0x40 % 0x40, 0x80 + n % 0x40]

/-- Percent-encoding of one byte. -/
def percentByte (b : Nat) : String := ⟨['%', hexDigitChar (b / 16 % 16), hexDigitChar (b % 16)]⟩

/-- Characters `urllib.parse.quote` leaves unencoded with its default
`safe="/"`: ASCII alphanumerics, `_.-~`, and the slash. -/
def quoteSafe (c : Char) : Bool :=
  c.isAlphanum || c = '_' || c = '.' || c = '-' || c = '~' || c = '/'

/-- Model of `urllib.parse.quote(s)` with the default `safe="/"`. -/
def pyQuote (s : String) : String :=
  String.join (s.data.map (fun c =>
    if quoteSafe c then String.singleton c
    else String.join ((utf8Bytes c).map percentByte)))

/-! ## Model of `urllib.parse.urlsplit` / `urljoin` (http/https cases) -/

structure SplitUrl where
  scheme : String
  netloc : String
  path : String
  query : String
  fragment : String
deriving Repr, DecidableEq

/-- Characters allowed in a URL scheme after the initial letter. -/
def isSchemeChar (c : Char) : Bool := c.isAlphanum || c = '+' || c = '-' || c = '.'

/-- Split a list at the first occurrence of `sep`; `none` when absent. -/
def splitFirst (sep : Char) : List Char → Option (List Char × List Char)
  | [] => none
  | c :: cs =>
    if c = sep then some ([], cs)
    else (splitFirst sep cs).map (fun p => (c :: p.1, p.2))

/-- The netloc part: consumed after a leading `//`, up to `/`, `?` or `#`. -/
def netlocSplit (l : List Char) : List Char × List Char :=
  match l with
  | '/' :: '/' :: tl =>
    (tl.takeWhile (fun c => !(c = '/' || c = '?' || c = '#')),
     tl.dropWhile (fun c => !(c = '/' || c = '?' || c = '#')))
  | other => ([], other)

/-- Model of `urllib.parse.urlsplit(url, scheme=defaultScheme)`. -/
def pyUrlsplit (defaultScheme : String) (url : String) : SplitUrl :=
  let step1 :=
    match splitFirst '#' url.data with
    | some p => p
    | none => (url.data, [])
  let rest := step1.1
  let fragment := step1.2
  let step2 :=
    match splitFirst ':' rest with
    | some p =>
      match p.1 with
      | [] => (defaultScheme.data, rest)
      | c :: cs =>
        if c.isAlpha && cs.all isSchemeChar then ((c :: cs).map Char.toLower, p.2)
        else (defaultScheme.data, rest)
    | none => (defaultScheme.data, rest)
  let scheme := step2.1
  let step3 := netlocSplit step2.2
  let netloc := step3.1
  let step4 :=
    match splitFirst '?' step3.2 with
    | some p => p
    | none => (step3.2, [])
  ⟨⟨scheme⟩, ⟨netloc⟩, ⟨step4.1⟩, ⟨step4.2⟩, ⟨fragment⟩⟩

/-- Model of `urllib.parse.urlunsplit` for the shapes produced here;
like CPython it inserts a slash between a netloc and a path that does not
already start with one. -/
def pyUrlunsplit (u : SplitUrl) : String :=
  let path :=
    if u.netloc ≠ "" ∧ u.path ≠ "" ∧ pyStartswith u.path "/" = false then "/" ++ u.path
    else u.path
  (if u.scheme = "" then "" else u.scheme ++ ":")
    ++ (if u.netloc = "" then "" else "//" ++ u.netloc)
    ++ path
    ++ (if u.query = "" then "" else "?" ++ u.query)
    ++ (if u.fragment = "" then "" else "#" ++ u.fragment)

def popHead : List String → List String
  | [] => []
  | _ :: t => t

/-- Resolution of `.` and `..` path segments, as `urljoin` performs it. -/
def resolveSegsAux : List String → List String → List String
  | acc, [] => acc.reverse
  | acc, s :: rest =>
    if s = ".." then resolveSegsAux (popHead acc) rest
    else if s = "." then resolveSegsAux acc rest
    else resolveSegsAux (s :: acc) rest

/-- Model of `urllib.parse.urljoin(base, url)` for the http/https bases the
proxy handles (schemes in `uses_relative`/`uses_netloc`). -/
def pyUrljoin (base url : String) : String :=
  if base = "" then url
  else if url = "" then base
  else
    let b := pyUrlsplit "" base
    let r := pyUrlsplit b.scheme url
    if r.scheme ≠ b.scheme then url
    else if r.netloc ≠ "" then pyUrlunsplit r
    else
      let netloc := b.netloc
      if r.path = "" then
        if r.query = "" then
          pyUrlunsplit ⟨r.scheme, netloc, b.path, b.query, r.fragment⟩
        else
          pyUrlunsplit ⟨r.scheme, netloc, b.path, r.query, r.fragment⟩
      else
        let segs :=
          if pyStartswith r.path "/" then
            pySplitChar '/' r.path
          else
            let baseParts0 := pySplitChar '/' b.path
            let baseParts :=
              if baseParts0.getLast? = some "" then baseParts0 else baseParts0.dropLast
            let segs0 := baseParts ++ pySplitChar '/' r.path
            match segs0 with
            | [] => []
            | [s] => [s]
            | first :: tl =>
              match tl.getLast? with
              | none => [first]
              | some last => first :: ((tl.dropLast).filter (fun s => s ≠ "")) ++ [last]
        let resolved := resolveSegsAux [] segs
        let resolved :=
          if segs.getLast? = some "." || segs.getLast? = some ".." then resolved ++ [""]
          else resolved
        let newPath := pyJoin "/" resolved
        let newPath := if newPath = "" then "/" else newPath
        pyUrlunsplit ⟨r.scheme, netloc, newPath, r.query, r.fragment⟩

/-! ## Program configuration (`app.py` lines 28-34) -/

def PREFIX : String := "/cachingproxy"

def ALLOW_URLS : List String := ["http://example.com", "https://adventofcode.com"]

def ONE_MINUTE_IN_SECONDS : Int := 60

def ONE_HOUR_IN_SECONDS : Int := 60 * ONE_MINUTE_IN_SECONDS

def ONE_DAY_IN_SECONDS : Int := 24 * ONE_HOUR_IN_SECONDS

def ONE_YEAR_IN_SECONDS : Int := 365 * ONE_DAY_IN_SECONDS

def DEFAULT_CACHE_EXPIRY : Int := ONE_YEAR_IN_SECONDS

/-! ## `rewrite_url` (lines 102-117) -/

def rewrite_url (url : String) (base_url : String) : String :=
  if url = "" then url
  else if pyStartswith url "javascript:" || pyStartswith url "data:"
      || pyStartswith url "#" || pyStartswith url "mailto:" then url
  else if !(pyStartswith url "http://" || pyStartswith url "https://") then
    PREFIX ++ "/proxy?url=" ++ pyQuote (pyUrljoin base_url url)
  else
    PREFIX ++ "/proxy?url=" ++ pyQuote url

/-! ## `encode_url` and `get_cache_path` (lines 43-64) -/

def substSlash (c : Char) : Char := if c = '/' then '$' else c

def substColon (c : Char) : Char := if c = ':' then '#' else c

/-- `url.replace("/", "$").replace(":", "#")`: two single-character
replacements in sequence. -/
def encode_url (url : String) : String := ⟨(url.data.map substSlash).map substColon⟩

/-- The cache root.  In the source it is `<dir of app.py>/cache`, fixed at
startup; the claims do not depend on its concrete value. -/
def CACHE_DIR : String := "/app/cache"

def parse_netloc (url : String) : String := (pyUrlsplit "" url).netloc

def parse_path (url : String) : String := (pyUrlsplit "" url).path

/-- Model of `mimetypes.guess_extension` for the image content types the
proxy can meet; unknown types yield `none` exactly as the library does. -/
def guess_extension (ct : String) : Option String :=
  if ct = "image/png" then some ".png"
  else if ct = "image/jpeg" then some ".jpg"
  else if ct = "image/gif" then some ".gif"
  else if ct = "image/webp" then some ".webp"
  else if ct = "image/svg+xml" then some ".svg"
  else if ct = "image/x-icon" then some ".ico"
  else none

/-- The basename of a path (everything after the last slash). -/
def splitext_base (p : String) : List Char :=
  (p.data.reverse.takeWhile (fun c => c ≠ '/')).reverse

/-- The basename with its leading dots removed: in `os.path.splitext`
leading dots do not begin an extension. -/
def splitext_core (p : String) : List Char :=
  (splitext_base p).dropWhile (fun c => c = '.')

/-- Model of the extension part of `os.path.splitext`: from the last dot
of the basename, where leading dots do not begin an extension. -/
def splitext_ext (p : String) : String :=
  if (splitext_core p).contains '.' then
    ⟨'.' :: ((splitext_core p).reverse.takeWhile (fun c => c ≠ '.')).reverse⟩
  else ""

def strEndsWithSlash (s : String) : Bool :=
  match s.data.getLast? with
  | some c => c = '/'
  | none => false

def strStartsWithSlash (s : String) : Bool :=
  match s.data.head? with
  | some c => c = '/'
  | none => false

/-- Model of `os.path.join(a, b)` on POSIX. -/
def os_join2 (a b : String) : String :=
  if strStartsWithSlash b then b
  else if a = "" then b
  else if b = "" then (if strEndsWithSlash a then a else a ++ "/")
  else if strEndsWithSlash a then a ++ b
  else a ++ "/" ++ b

/-- The extension chosen at lines 54-61: default `.html`; for an image
content type, the MIME-derived extension, else the URL path's own
extension, else `.bin`. -/
def cache_ext (url : String) (content_type : Option String) : String :=
  match content_type with
  | some ct =>
    if pyContains ct "image" then
      match guess_extension ct with
      | some e => e
      | none =>
        if splitext_ext (parse_path url) = "" then ".bin" else splitext_ext (parse_path url)
    else ".html"
  | none => ".html"

/-- `get_cache_path(url, content_type)`.  The `md5` hash computed by the
source is dead code (immediately overwritten by `encode_url(url)`), and the
`mkdir` side effect does not influence the returned path. -/
def get_cache_path (url : String) (content_type : Option String) : String :=
  let url_hash := encode_url url
  let netloc := parse_netloc url
  os_join2 (os_join2 CACHE_DIR netloc) (url_hash ++ cache_ext url content_type)

/-! ## The filesystem cache and `is_cached` (lines 67-77) -/

structure CacheFile where
  mtime : Int
  content : String
deriving Repr, DecidableEq

/-- The cache directory tree: a map from paths to files.  `mtime` models the
filesystem modification time, `content` the stored bytes/text. -/
def Fs : Type := String → Option CacheFile

/-- `is_cached(url, max_age)`: the path is resolved without a content type,
and the entry is fresh iff the file exists and `now - mtime < max_age`. -/
def is_cached (fs : Fs) (now : Int) (url : String) (max_age : Int) : Bool :=
  match fs (get_cache_path url none) with
  | some f => decide (now - f.mtime < max_age)
  | none => false

/-! ## The allowlist loop (lines 265-271)

The source initialises `allowed = True`, then for each configured prefix
sets `allowed = False` and flips it back (breaking) when the URL starts
with that prefix. -/

def allowCheck (url : String) : List String → Bool → Bool
  | [], allowed => allowed
  | a :: rest, _ => if pyStartswith url a then true else allowCheck url rest false

def isAllowed (url : String) (allow : List String) : Bool := allowCheck url allow true

/-! ## The request handler `proxy_full_async` (lines 252-374) -/

/-- `'.html'` suffix test, modelling `str.endswith`. -/
def endsWithHtml (s : String) : Bool := ".html".data.isSuffixOf s.data

/-- Scheme normalisation at lines 262-263. -/
def normalize_url (url : String) : String :=
  if pyStartswith url "http://" || pyStartswith url "https://" then url
  else "https://" ++ url

/-- What the network returned for the target URL: a response with status,
content-type header and payload, or a transport-level failure (DNS,
connect, timeout), which in the source surfaces as an exception. -/
inductive FetchResult where
  | success (status : Nat) (contentType : String) (body : String)
  | transportError (msg : String)
deriving Repr, DecidableEq

/-- The reply of the handler.  The two error constructors model the two
error templates, each rendered with the target URL and either the upstream
status code or the exception text. -/
inductive ProxyResult where
  | redirectToIndex
  | body (html : String)
  | binaryResponse (content : String) (contentType : String)
  | httpErrorPage (url : String) (status : Nat)
  | exceptionPage (url : String) (error : String)
deriving Repr, DecidableEq

/-- A cache write: full overwrite of the entry at `p`, mtime = write time. -/
def fsWrite (fs : Fs) (p : String) (f : CacheFile) : Fs :=
  fun q => if q = p then some f else fs q

/-- The cache-hit branch (lines 281-292): re-resolve the path without a
content type, and serve text when the stored extension is `.html`, else
bytes with the generic `image` content type.  `none` when the file
vanished, in which case the source falls through to the fetch. -/
def serveFromCache (url : String) (fs : Fs) : Option ProxyResult :=
  let p := get_cache_path url none
  match fs p with
  | some f =>
    if endsWithHtml p then some (.body f.content)
    else some (.binaryResponse f.content "image")
  | none => none

/-- The fetch-classify-cache part (lines 296-348), given the fetched
result.  `rw` is the link rewriter applied to HTML bodies. -/
def fetch_and_cache (rw : String → String → String) (fs : Fs) (now : Int)
    (url : String) (fetch : FetchResult) : ProxyResult × Fs :=
  match fetch with
  | .transportError msg => (.exceptionPage url msg, fs)
  | .success status ct rawBody =>
    if status ≠ 200 then (.httpErrorPage url status, fs)
    else
      let content_type := pyLower ct
      let cache_path := get_cache_path url (some content_type)
      if pyContains content_type "text/html" = false then
        (.binaryResponse rawBody content_type, fsWrite fs cache_path ⟨now, rawBody⟩)
      else
        let processed := rw rawBody url
        (.body processed, fsWrite fs cache_path ⟨now, processed⟩)

/-- The whole request handler, as a function of the request URL, the cache
state, the current time and the network's answer for the (normalised)
URL. -/
def proxy_full_async (rw : String → String → String) (fs : Fs) (now : Int)
    (url : String) (fetch : FetchResult) : ProxyResult × Fs :=
  if url = "" then (.redirectToIndex, fs)
  else
    let url := normalize_url url
    if isAllowed url ALLOW_URLS = false then (.exceptionPage url "Forbidden URL!", fs)
    else if is_cached fs now url DEFAULT_CACHE_EXPIRY then
      match serveFromCache url fs with
      | some r => (r, fs)
      | none => fetch_and_cache rw fs now url fetch
    else fetch_and_cache rw fs now url fetch

/-! ## The HTML document model

The specification treats the HTML parser/serializer as an external
capability behind a narrow interface; the rewriter works on the parsed
tree.  A node is an element (tag name, attributes in document order,
children) or a text node; a document is the list of top-level nodes. -/

inductive Node where
  | elem (name : String) (attrs : List (String × String)) (children : List Node)
  | text (s : String)

mutual

def nodeDecEq : (x y : Node) → Decidable (x = y)
  | .text s, .text t =>
    match decEq s t with
    | .isTrue h => .isTrue (by rw [h])
    | .isFalse h => .isFalse (fun e => h (by cases e; rfl))
  | .text _, .elem _ _ _ => .isFalse nofun
  | .elem _ _ _, .text _ => .isFalse nofun
  | .elem n1 a1 c1, .elem n2 a2 c2 =>
    match decEq n1 n2, decEq a1 a2, nodeListDecEq c1 c2 with
    | .isTrue h1, .isTrue h2, .isTrue h3 => .isTrue (by rw [h1, h2, h3])
    | .isFalse h, _, _ => .isFalse (fun e => by cases e; exact h rfl)
    | _, .isFalse h, _ => .isFalse (fun e => by cases e; exact h rfl)
    | _, _, .isFalse h => .isFalse (fun e => by cases e; exact h rfl)

def nodeListDecEq : (x y : List Node) → Decidable (x = y)
  | [], [] => .isTrue rfl
  | [], _ :: _ => .isFalse nofun
  | _ :: _, [] => .isFalse nofun
  | a :: as, b :: bs =>
    match nodeDecEq a b, nodeListDecEq as bs with
    | .isTrue h1, .isTrue h2 => .isTrue (by rw [h1, h2])
    | .isFalse h, _ => .isFalse (fun e => by cases e; exact h rfl)
    | _, .isFalse h => .isFalse (fun e => by cases e; exact h rfl)

end

instance : DecidableEq Node := nodeDecEq

abbrev Attrs := List (String × String)

/-- Attribute lookup (`tag.get(k)` / `tag[k]` when present). -/
def getAttr (a : Attrs) (k : String) : Option String :=
  (a.find? (fun p => p.1 == k)).map Prod.snd

/-- Attribute assignment `tag[k] = v`: replace the first binding of `k`,
or append one. -/
def setAttr (a : Attrs) (k v : String) : Attrs :=
  match a with
  | [] => [(k, v)]
  | p :: rest => if p.1 == k then (k, v) :: rest else p :: setAttr rest k v

/-! One `find_all`-and-mutate pass: apply `f` to every element's
attributes (each of the source's five loops only touches one tag name,
selected inside `f`). -/
mutual

def mapAttrsNode (f : String → Attrs → Attrs) : Node → Node
  | .text s => .text s
  | .elem n a c => .elem n (f n a) (mapAttrsList f c)

def mapAttrsList (f : String → Attrs → Attrs) : List Node → List Node
  | [] => []
  | x :: xs => mapAttrsNode f x :: mapAttrsList f xs

end

/-- `srcset` handling (lines 135-142): split on commas, strip each
candidate, split it on single spaces, rewrite the first piece, rejoin. -/
def rewrite_srcset (srcset base_url : String) : String :=
  pyJoin ", " ((pySplitChar ',' srcset).map (fun cand =>
    match pySplitChar ' ' (pyStrip cand) with
    | [] => ""
    | p :: rest => pyJoin " " (rewrite_url p base_url :: rest)))

/-- Multi-valued `rel` attribute as BeautifulSoup stores it: whitespace
split, empty tokens dropped. -/
def bs4RelTokens (s : String) : List String :=
  ((splitOnPredL pyWhitespace s.data).map (fun l => (⟨l⟩ : String))).filter (fun t => t ≠ "")

/-- BeautifulSoup attribute matching of a string filter against the
multi-valued `rel`: the filter equals one token or the whole joined value. -/
def bs4RelMatches (pat : String) (a : Attrs) : Bool :=
  match getAttr a "rel" with
  | none => false
  | some r =>
    let toks := bs4RelTokens r
    toks.contains pat || pyJoin " " toks == pat

/-- Pass for `soup.find_all("a", href=True)` (lines 128-129). -/
def ruleA (base_url : String) (name : String) (a : Attrs) : Attrs :=
  if name == "a" then
    match getAttr a "href" with
    | some h => setAttr a "href" (rewrite_url h base_url)
    | none => a
  else a

/-- Pass for `soup.find_all("img", src=True)` with nested `srcset`
handling (lines 132-142); an `img` without `src` is untouched. -/
def ruleImg (base_url : String) (name : String) (a : Attrs) : Attrs :=
  if name == "img" then
    match getAttr a "src" with
    | some s =>
      let a2 := setAttr a "src" (rewrite_url s base_url)
      match getAttr a2 "srcset" with
      | some ss => if ss ≠ "" then setAttr a2 "srcset" (rewrite_srcset ss base_url) else a2
      | none => a2
    | none => a
  else a

/-- Pass for stylesheet links (lines 145-147): `href` present and
`"stylesheet" in link.get("rel")`. -/
def ruleLink (base_url : String) (name : String) (a : Attrs) : Attrs :=
  if name == "link" then
    match getAttr a "href" with
    | some h =>
      match getAttr a "rel" with
      | some r =>
        if (bs4RelTokens r).contains "stylesheet" then setAttr a "href" (rewrite_url h base_url)
        else a
      | none => a
    | none => a
  else a

/-- Pass for `soup.find_all("script", src=True)` (lines 150-151). -/
def ruleScript (base_url : String) (name : String) (a : Attrs) : Attrs :=
  if name == "script" then
    match getAttr a "src" with
    | some s => setAttr a "src" (rewrite_url s base_url)
    | none => a
  else a

/-- Pass for `soup.find_all("form", action=True)` (lines 154-155). -/
def ruleForm (base_url : String) (name : String) (a : Attrs) : Attrs :=
  if name == "form" then
    match getAttr a "action" with
    | some v => setAttr a "action" (rewrite_url v base_url)
    | none => a
  else a

/-- The five attribute-rewriting passes, in source order. -/
def rewrite_passes (base_url : String) (doc : List Node) : List Node :=
  let d := mapAttrsList (ruleA base_url) doc
  let d := mapAttrsList (ruleImg base_url) d
  let d := mapAttrsList (ruleLink base_url) d
  let d := mapAttrsList (ruleScript base_url) d
  mapAttrsList (ruleForm base_url) d

/-! Preorder element indexing, used for the find-then-mutate steps of the
stylesheet swap (the source holds references into the tree obtained by two
`find` calls before mutating, so the updates are by position). -/

mutual

def elemCountN : Node → Nat
  | .text _ => 0
  | .elem _ _ c => 1 + elemCountL c

def elemCountL : List Node → Nat
  | [] => 0
  | x :: xs => elemCountN x + elemCountL xs

end

mutual

def findIdxN (p : String → Attrs → Bool) : Node → Option Nat
  | .text _ => none
  | .elem n a c => if p n a then some 0 else (findIdxL p c).map (fun i => i + 1)

def findIdxL (p : String → Attrs → Bool) : List Node → Option Nat
  | [] => none
  | x :: xs =>
    match findIdxN p x with
    | some i => some i
    | none => (findIdxL p xs).map (fun i => i + elemCountN x)

end

mutual

def setAtN (f : String → Attrs → Attrs) : Node → Nat → Node
  | .text s, _ => .text s
  | .elem n a c, tgt =>
    if tgt = 0 then .elem n (f n a) c else .elem n a (setAtL f c (tgt - 1))

def setAtL (f : String → Attrs → Attrs) : List Node → Nat → List Node
  | [], _ => []
  | x :: xs, tgt =>
    if tgt < elemCountN x then setAtN f x tgt :: xs
    else x :: setAtL f xs (tgt - elemCountN x)

end

/-- The attribute mutation `link["rel"] = v`, guarded by the tag name so
that only a `link` element is ever touched. -/
def relSetter (v : String) (name : String) (a : Attrs) : Attrs :=
  if name == "link" then setAttr a "rel" v else a

def isAltLink (name : String) (a : Attrs) : Bool :=
  name == "link" && bs4RelMatches "stylesheet alternate" a

def isStylesheetLink (name : String) (a : Attrs) : Bool :=
  name == "link" && bs4RelMatches "stylesheet" a

/-- The alternate-stylesheet swap (lines 163-171): both `find` calls run on
the pre-mutation tree; then the primary's `rel` becomes `"ONZIN"` and the
alternate's becomes `"stylesheet"`, in that order. -/
def swap_stylesheets (doc : List Node) : List Node :=
  match findIdxL isAltLink doc with
  | none => doc
  | some j =>
    match findIdxL isStylesheetLink doc with
    | none => doc
    | some i => setAtL (relSetter "stylesheet") (setAtL (relSetter "ONZIN") doc i) j

/-! Tag counting, first-element lookup, and the base/viewport insertion. -/

mutual

def countTagN (name : String) : Node → Nat
  | .text _ => 0
  | .elem n _ c => (if n == name then 1 else 0) + countTagL name c

def countTagL (name : String) : List Node → Nat
  | [] => 0
  | x :: xs => countTagN name x + countTagL name xs

end

/-! Count of viewport meta tags (`<meta name="viewport">`). -/
mutual

def countViewportN : Node → Nat
  | .text _ => 0
  | .elem n a c =>
    (if n == "meta" && getAttr a "name" == some "viewport" then 1 else 0) + countViewportL c

def countViewportL : List Node → Nat
  | [] => 0
  | x :: xs => countViewportN x + countViewportL xs

end

/-! First element with the given tag name, in document (preorder) order:
`soup.find(name)`. -/
mutual

def firstElemN (name : String) : Node → Option Node
  | .text _ => none
  | .elem n a c => if n == name then some (.elem n a c) else firstElemL name c

def firstElemL (name : String) : List Node → Option Node
  | [] => none
  | x :: xs =>
    match firstElemN name x with
    | some r => some r
    | none => firstElemL name xs

end

/-- The new `<base target="_self">` tag built at lines 158-159. -/
def newBaseTag : Node := .elem "base" [("target", "_self")] []

/-- The viewport meta tag built at lines 160-162. -/
def newMetaTag : Node :=
  .elem "meta" [("name", "viewport"), ("content", "width=device-width, initial-scale=1.0")] []

/-! `base_tag["target"] = "_self"` on an existing base tag: update the
first base element, in preorder, guided by subtree counts. -/
mutual

def setBaseTargetN : Node → Node
  | .text s => .text s
  | .elem n a c =>
    if n == "base" then .elem n (setAttr a "target" "_self") c
    else .elem n a (setBaseTargetL c)

def setBaseTargetL : List Node → List Node
  | [] => []
  | x :: xs =>
    if countTagN "base" x ≠ 0 then setBaseTargetN x :: xs else x :: setBaseTargetL xs

end

/-! `soup.head.insert(0, base_tag); soup.head.append(meta_tag)` on the
first head element (lines 173-175). -/
mutual

def insertIntoHeadN : Node → Node
  | .text s => .text s
  | .elem n a c =>
    if n == "head" then .elem n a (newBaseTag :: c ++ [newMetaTag])
    else .elem n a (insertIntoHeadL c)

def insertIntoHeadL : List Node → List Node
  | [] => []
  | x :: xs =>
    if countTagN "head" x ≠ 0 then insertIntoHeadN x :: xs else x :: insertIntoHeadL xs

end

/-! Synthesize a head holding only the base tag and insert it as the first
child of the first html element (lines 176-179); no viewport meta here. -/
mutual

def insertHeadIntoHtmlN : Node → Node
  | .text s => .text s
  | .elem n a c =>
    if n == "html" then .elem n a (Node.elem "head" [] [newBaseTag] :: c)
    else .elem n a (insertHeadIntoHtmlL c)

def insertHeadIntoHtmlL : List Node → List Node
  | [] => []
  | x :: xs =>
    if countTagN "html" x ≠ 0 then insertHeadIntoHtmlN x :: xs else x :: insertHeadIntoHtmlL xs

end

/-- Lines 125-171 of `rewrite_html` on the parsed tree: the five
attribute passes, `target="_self"` on an existing base tag, and the
alternate-stylesheet swap. -/
def rewrite_prep (base_url : String) (doc : List Node) : List Node :=
  let d := rewrite_passes base_url doc
  let d := if countTagL "base" d = 0 then d else setBaseTargetL d
  swap_stylesheets d

/-- The body of `rewrite_html` on the parsed tree (lines 125-181): the
preparation stage, then the base/head/viewport insertion of lines 172-179
when no base tag exists. -/
def rewrite_html_tree (base_url : String) (doc : List Node) : List Node :=
  let d := rewrite_prep base_url doc
  if countTagL "base" d = 0 then
    if countTagL "head" d ≠ 0 then insertIntoHeadL d
    else if countTagL "html" d ≠ 0 then insertHeadIntoHtmlL d
    else d
  else d

/-- `rewrite_html` (lines 120-181): a falsy input (`None` or the empty
string) returns `""` before the parser runs; otherwise parse, rewrite the
tree, serialize. -/
def rewrite_html (parse : String → List Node) (serialize : List Node → String)
    (html_content : Option String) (base_url : String) : String :=
  match html_content with
  | none => ""
  | some s => if s = "" then "" else serialize (rewrite_html_tree base_url (parse s))

/-! ## Claim C1: the allowlist guard -/

lemma allowCheck_false_iff (url : String) :
    ∀ l : List String, allowCheck url l false = true ↔ ∃ p ∈ l, pyStartswith url p = true := by
  intro l
  induction l with
  | nil => simp [allowCheck]
  | cons a rest ih =>
    by_cases h : pyStartswith url a = true
    · simp [allowCheck, h]
    · simp only [allowCheck]
      rw [if_neg (by simpa using h)]
      simp only [ih, List.mem_cons]
      constructor
      · rintro ⟨p, hp, hs⟩; exact ⟨p, Or.inr hp, hs⟩
      · rintro ⟨p, hp | hp, hs⟩
        · subst hp; exact absurd hs h
        · exact ⟨p, hp, hs⟩

/-- C1, counterexample: with an empty allowlist the loop's initial
`allowed = True` survives, so `isAllowed` reports `true` for a URL that
starts with none of the configured prefixes, refuting the claimed
equivalence (which demands `false` for the empty allowlist). -/
theorem c1_counterexample :
    ¬ (isAllowed "https://evil.example/" [] = true ↔
        ∃ p ∈ ([] : List String), pyStartswith "https://evil.example/" p = true) := by
  simp [isAllowed, allowCheck]

/-- C1, amended: for every non-empty allowlist, `isAllowed` returns true
iff the URL starts with at least one configured origin-prefix string; for
the empty allowlist every URL is allowed (the guard fails open, not
closed). -/
theorem c1_allowlist_amended (url : String) (allow : List String) :
    (allow ≠ [] → (isAllowed url allow = true ↔ ∃ p ∈ allow, pyStartswith url p = true)) ∧
      isAllowed url [] = true := by
  refine ⟨?_, rfl⟩
  intro hne
  match allow with
  | [] => exact absurd rfl hne
  | a :: rest =>
    by_cases h : pyStartswith url a = true
    · simp [isAllowed, allowCheck, h]
    · simp only [isAllowed, allowCheck]
      rw [if_neg (by simpa using h)]
      rw [allowCheck_false_iff]
      simp only [List.mem_cons]
      constructor
      · rintro ⟨p, hp, hs⟩; exact ⟨p, Or.inr hp, hs⟩
      · rintro ⟨p, hp | hp, hs⟩
        · subst hp; exact absurd hs h
        · exact ⟨p, hp, hs⟩

/-- C1, witness: the amended equivalence at the configured allowlist. -/
theorem c1_witness :
    ALLOW_URLS ≠ [] ∧
      (isAllowed "https://adventofcode.com/2023" ALLOW_URLS = true ↔
        ∃ p ∈ ALLOW_URLS, pyStartswith "https://adventofcode.com/2023" p = true) :=
  ⟨by decide, (c1_allowlist_amended "https://adventofcode.com/2023" ALLOW_URLS).1 (by decide)⟩

/-! ## Claim C9: unchanged schemes -/

/-- C9: an attribute value that is empty or starts with `javascript:`,
`data:`, `#` or `mailto:` is returned unchanged by the URL rewrite rule. -/
theorem c9_skip_schemes_unchanged (v base : String)
    (h : v = "" ∨ pyStartswith v "javascript:" = true ∨ pyStartswith v "data:" = true ∨
      pyStartswith v "#" = true ∨ pyStartswith v "mailto:" = true) :
    rewrite_url v base = v := by
  rcases h with h | h | h | h | h
  · simp [rewrite_url, h]
  all_goals
    by_cases h0 : v = ""
    · simp [rewrite_url, h0]
    · simp [rewrite_url, h0, h]

/-- C9, witness: a `javascript:` href is untouched byte for byte. -/
theorem c9_witness :
    pyStartswith "javascript:void(0)" "javascript:" = true ∧
      rewrite_url "javascript:void(0)" "https://example.com/" = "javascript:void(0)" :=
  ⟨by decide, c9_skip_schemes_unchanged "javascript:void(0)" "https://example.com/"
    (Or.inr (Or.inl (by decide)))⟩

/-! ## Claim C10: falsy input short-circuits the rewriter -/

/-- C10: a falsy document (`None` or `""`) makes `rewrite_html` return the
empty string for every parser and serializer, i.e. without consulting the
parser, and totally (no exception is possible). -/
theorem c10_falsy_html (parse : String → List Node) (serialize : List Node → String)
    (base : String) :
    rewrite_html parse serialize none base = "" ∧
      rewrite_html parse serialize (some "") base = "" :=
  ⟨rfl, rfl⟩

/-! ## Claim C6: the freshness check -/

/-- C6: `is_cached` is true iff a file exists at the path resolved without
a content type and its age `now - mtime` is strictly below `max_age`. -/
theorem c6_freshness (fs : Fs) (now : Int) (url : String) (max_age : Int) :
    is_cached fs now url max_age = true ↔
      ∃ f, fs (get_cache_path url none) = some f ∧ now - f.mtime < max_age := by
  unfold is_cached
  cases h : fs (get_cache_path url none) with
  | none => simp [h]
  | some f => simp [h]

/-! ## Claims C3 and C4: structure of resolved cache paths -/

lemma encode_no_slash (u : String) : '/' ∉ (encode_url u).data := by
  intro h
  have h2 : '/' ∈ u.data.map (fun c => substColon (substSlash c)) := by
    simpa [encode_url, List.map_map, Function.comp] using h
  rcases List.mem_map.mp h2 with ⟨c, _, hc⟩
  by_cases e1 : c = '/'
  · subst e1; exact absurd hc (by decide)
  · by_cases e2 : c = ':'
    · subst e2; exact absurd hc (by decide)
    · simp only [substSlash, substColon, if_neg e1, if_neg e2] at hc
      exact e1 hc

lemma subst_eval_id (c : Char) (h1 : c ≠ '/') (h2 : c ≠ ':') :
    substColon (substSlash c) = c := by
  simp only [substSlash, substColon]
  rw [if_neg h1, if_neg h2]

lemma subst_inj (c d : Char) (hc1 : c ≠ '$') (hc2 : c ≠ '#') (hd1 : d ≠ '$') (hd2 : d ≠ '#')
    (h : substColon (substSlash c) = substColon (substSlash d)) : c = d := by
  by_cases e1 : c = '/'
  · subst e1
    by_cases e2 : d = '/'
    · rw [e2]
    · by_cases e3 : d = ':'
      · subst e3; exact absurd h (by decide)
      · rw [subst_eval_id d e2 e3] at h
        exact absurd (show ('$' : Char) = d from h) (fun e => hd1 e.symm)
  · by_cases e3 : c = ':'
    · subst e3
      by_cases e2 : d = '/'
      · subst e2; exact absurd h (by decide)
      · by_cases e4 : d = ':'
        · rw [e4]
        · rw [subst_eval_id d e2 e4] at h
          exact absurd (show ('#' : Char) = d from h) (fun e => hd2 e.symm)
    · rw [subst_eval_id c e1 e3] at h
      by_cases e2 : d = '/'
      · subst e2
        exact absurd (show c = ('$' : Char) from h) hc1
      · by_cases e4 : d = ':'
        · subst e4
          exact absurd (show c = ('#' : Char) from h) hc2
        · rw [subst_eval_id d e2 e4] at h
          exact h

lemma map_subst_inj : ∀ (l1 l2 : List Char), (∀ c ∈ l1, c ≠ '$' ∧ c ≠ '#') →
    (∀ c ∈ l2, c ≠ '$' ∧ c ≠ '#') →
    l1.map (substColon ∘ substSlash) = l2.map (substColon ∘ substSlash) → l1 = l2 := by
  intro l1
  induction l1 with
  | nil => intro l2 _ _ h; cases l2 <;> simp_all
  | cons c cs ih =>
    intro l2 h1 h2 h
    cases l2 with
    | nil => simp_all
    | cons d ds =>
      simp only [List.map_cons, List.cons.injEq] at h
      have hc := h1 c (List.mem_cons_self c cs)
      have hd := h2 d (List.mem_cons_self d ds)
      have : c = d := subst_inj c d hc.1 hc.2 hd.1 hd.2 h.1
      rw [this, ih ds (fun x hx => h1 x (List.mem_cons_of_mem c hx))
        (fun x hx => h2 x (List.mem_cons_of_mem d hx)) h.2]

lemma netlocSplit_no_slash (l : List Char) : '/' ∉ (netlocSplit l).1 := by
  unfold netlocSplit
  split
  · intro h
    have := List.mem_takeWhile_imp h
    simp at this
  · simp

lemma pyUrlsplit_netloc_no_slash (ds u : String) : '/' ∉ ((pyUrlsplit ds u).netloc).data :=
  netlocSplit_no_slash _

lemma mem_of_getLastEq {l : List Char} {a : Char} (h : l.getLast? = some a) : a ∈ l := by
  obtain ⟨hne, rfl⟩ :=
    List.mem_getLast?_eq_getLast (l := l) (x := a) (by rw [h]; exact Option.mem_some_self a)
  exact List.getLast_mem hne

lemma data_eq_nil_iff (s : String) : s.data = [] ↔ s = "" := by
  cases s with
  | mk d =>
    show d = [] ↔ String.mk d = ""
    constructor
    · intro h; rw [h]
    · intro h; exact congrArg String.data h

lemma strStartsWithSlash_eq_false (s : String) (h : '/' ∉ s.data) :
    strStartsWithSlash s = false := by
  unfold strStartsWithSlash
  cases hd : s.data with
  | nil => simp [hd]
  | cons c cs =>
    have hm : c ∈ s.data := by rw [hd]; exact List.mem_cons_self _ _
    have hc : ¬ c = '/' := fun e => h (e ▸ hm)
    simp [hd, hc]

lemma os_join2_eq (a b : String) (hb : strStartsWithSlash b = false) (hane : a ≠ "")
    (hbne : b ≠ "") :
    os_join2 a b = if strEndsWithSlash a then a ++ b else a ++ "/" ++ b := by
  unfold os_join2
  rw [if_neg (by simp [hb]), if_neg hane, if_neg hbne]

lemma os_join2_empty (a : String) (hane : a ≠ "") (ha : strEndsWithSlash a = false) :
    os_join2 a "" = a ++ "/" := by
  unfold os_join2
  rw [if_neg (by decide), if_neg hane, if_pos rfl]
  rw [if_neg (by simp [ha])]

lemma splitext_ext_shape (p : String) :
    splitext_ext p = "" ∨ ∃ s, (splitext_ext p).data = '.' :: s ∧ '.' ∉ s ∧ '/' ∉ s := by
  unfold splitext_ext
  split
  · right
    refine ⟨((splitext_core p).reverse.takeWhile (fun c => c ≠ '.')).reverse, rfl, ?_, ?_⟩
    · intro hm
      rw [List.mem_reverse] at hm
      have h2 := List.mem_takeWhile_imp hm
      simp at h2
    · intro hm
      rw [List.mem_reverse] at hm
      have h1 : '/' ∈ (splitext_core p).reverse := (List.takeWhile_sublist _).subset hm
      rw [List.mem_reverse] at h1
      unfold splitext_core at h1
      have h2 : '/' ∈ splitext_base p := (List.dropWhile_sublist _).subset h1
      unfold splitext_base at h2
      rw [List.mem_reverse] at h2
      have h3 := List.mem_takeWhile_imp h2
      simp at h3
  · left; rfl

lemma cache_ext_some (u c : String) :
    cache_ext u (some c) =
      (if pyContains c "image" then
        match guess_extension c with
        | some e => e
        | none =>
          if splitext_ext (parse_path u) = "" then ".bin" else splitext_ext (parse_path u)
      else ".html") := rfl

lemma cache_ext_shape (u : String) (ct : Option String) :
    ∃ s, (cache_ext u ct).data = '.' :: s ∧ '.' ∉ s ∧ '/' ∉ s := by
  cases ct with
  | none => exact ⟨['h', 't', 'm', 'l'], rfl, by decide, by decide⟩
  | some c =>
    rw [cache_ext_some]
    by_cases him : pyContains c "image" = true
    · rw [if_pos him]
      cases hg : guess_extension c with
      | some e =>
        unfold guess_extension at hg
        split_ifs at hg
        · obtain rfl : e = ".png" := (Option.some.inj hg).symm
          exact ⟨['p', 'n', 'g'], rfl, by decide, by decide⟩
        · obtain rfl : e = ".jpg" := (Option.some.inj hg).symm
          exact ⟨['j', 'p', 'g'], rfl, by decide, by decide⟩
        · obtain rfl : e = ".gif" := (Option.some.inj hg).symm
          exact ⟨['g', 'i', 'f'], rfl, by decide, by decide⟩
        · obtain rfl : e = ".webp" := (Option.some.inj hg).symm
          exact ⟨['w', 'e', 'b', 'p'], rfl, by decide, by decide⟩
        · obtain rfl : e = ".svg" := (Option.some.inj hg).symm
          exact ⟨['s', 'v', 'g'], rfl, by decide, by decide⟩
        · obtain rfl : e = ".ico" := (Option.some.inj hg).symm
          exact ⟨['i', 'c', 'o'], rfl, by decide, by decide⟩
      | none =>
        show ∃ s,
          (if splitext_ext (parse_path u) = "" then ".bin"
            else splitext_ext (parse_path u)).data = '.' :: s ∧ '.' ∉ s ∧ '/' ∉ s
        by_cases hsp : splitext_ext (parse_path u) = ""
        · rw [if_pos hsp]
          exact ⟨['b', 'i', 'n'], rfl, by decide, by decide⟩
        · rw [if_neg hsp]
          rcases splitext_ext_shape (parse_path u) with h | h
          · contradiction
          · exact h
    · rw [if_neg him]
      exact ⟨['h', 't', 'm', 'l'], rfl, by decide, by decide⟩

lemma fname_not_slash_start (u : String) (ct : Option String) :
    strStartsWithSlash (encode_url u ++ cache_ext u ct) = false := by
  obtain ⟨s, hs, -, -⟩ := cache_ext_shape u ct
  unfold strStartsWithSlash
  rw [String.data_append]
  cases hd : (encode_url u).data with
  | nil => simp [hd, hs]
  | cons c cs =>
    have hm : c ∈ (encode_url u).data := by rw [hd]; exact List.mem_cons_self _ _
    have hc : ¬ c = '/' := fun e => encode_no_slash u (e ▸ hm)
    simp [hd, hc]

lemma fname_ne_empty (u : String) (ct : Option String) : encode_url u ++ cache_ext u ct ≠ "" := by
  obtain ⟨s, hs, -, -⟩ := cache_ext_shape u ct
  intro e
  have h : (encode_url u ++ cache_ext u ct).data = [] := by rw [e]
  rw [String.data_append, hs] at h
  exact List.cons_ne_nil _ _ (List.append_eq_nil.mp h).2

lemma fname_no_slash (u : String) (ct : Option String) :
    '/' ∉ (encode_url u).data ++ (cache_ext u ct).data := by
  obtain ⟨s, hs, -, hsl⟩ := cache_ext_shape u ct
  intro hmem
  rcases List.mem_append.mp hmem with hm | hm
  · exact encode_no_slash u hm
  · rw [hs] at hm
    rcases List.mem_cons.mp hm with hm | hm
    · exact absurd hm (by decide)
    · exact hsl hm

lemma get_cache_path_shape (u : String) (ct : Option String) :
    ∃ A : List Char, (get_cache_path u ct).data =
      A ++ '/' :: ((encode_url u).data ++ (cache_ext u ct).data) := by
  have hpath : get_cache_path u ct =
      os_join2 (os_join2 CACHE_DIR (parse_netloc u)) (encode_url u ++ cache_ext u ct) := rfl
  have hn_noslash : '/' ∉ (parse_netloc u).data := pyUrlsplit_netloc_no_slash "" u
  by_cases hne : parse_netloc u = ""
  · rw [hpath, hne, os_join2_empty CACHE_DIR (by decide) (by decide),
      os_join2_eq _ _ (fname_not_slash_start u ct) (by decide) (fname_ne_empty u ct),
      if_pos (by decide)]
    exact ⟨CACHE_DIR.data, by simp [String.data_append]⟩
  · have hn_data_ne : (parse_netloc u).data ≠ [] :=
      fun e => hne ((data_eq_nil_iff _).mp e)
    have hinner_end : strEndsWithSlash (CACHE_DIR ++ "/" ++ parse_netloc u) = false := by
      unfold strEndsWithSlash
      rw [String.data_append, List.getLast?_append_of_ne_nil _ hn_data_ne]
      cases hd : (parse_netloc u).data.getLast? with
      | none => simp
      | some c =>
        have hm : c ∈ (parse_netloc u).data := mem_of_getLastEq hd
        have hc : ¬ c = '/' := fun e => hn_noslash (e ▸ hm)
        simp [hc]
    have hinner_ne : CACHE_DIR ++ "/" ++ parse_netloc u ≠ "" := by
      intro e
      have h := congrArg String.data e
      simp [String.data_append] at h
    rw [hpath, os_join2_eq _ _ (strStartsWithSlash_eq_false _ hn_noslash) (by decide) hne,
      if_neg (by decide),
      os_join2_eq _ _ (fname_not_slash_start u ct) hinner_ne (fname_ne_empty u ct),
      if_neg (by simp [hinner_end])]
    exact ⟨(CACHE_DIR ++ "/" ++ parse_netloc u).data, by simp [String.data_append]⟩

lemma get_cache_path_none_shape (u : String) :
    ∃ A : List Char, (get_cache_path u none).data =
      A ++ '/' :: ((encode_url u).data ++ ".html".data) :=
  get_cache_path_shape u none

/-- C4: the freshness check always resolves to a `.html` path, so a
reported cache hit is always served through the text branch (the binary
hit branch with content type `image` is dead), and a cache tree holding
only non-`.html` entries never reports fresh. -/
theorem c4_cache_hits_are_html (url : String) (fs : Fs) (now max_age : Int) :
    endsWithHtml (get_cache_path url none) = true ∧
      (is_cached fs now url max_age = true →
        serveFromCache url fs =
          (fs (get_cache_path url none)).map (fun f => ProxyResult.body f.content)) ∧
      ((∀ p f, fs p = some f → endsWithHtml p = false) →
        is_cached fs now url max_age = false) := by
  obtain ⟨A, hA⟩ := get_cache_path_none_shape url
  have hends : endsWithHtml (get_cache_path url none) = true := by
    unfold endsWithHtml
    have hsplit : (get_cache_path url none).data =
        (A ++ '/' :: (encode_url url).data) ++ ".html".data := by
      rw [hA]; simp
    rw [hsplit]
    exact (List.isSuffixOf_iff_suffix).mpr (List.suffix_append _ _)
  refine ⟨hends, ?_, ?_⟩
  · intro hc
    unfold serveFromCache
    unfold is_cached at hc
    cases hfs : fs (get_cache_path url none) with
    | none => rw [hfs] at hc; simp at hc
    | some f => simp [hfs, hends]
  · intro hnone
    unfold is_cached
    cases hfs : fs (get_cache_path url none) with
    | none => rfl
    | some f => simp [hnone _ _ hfs] at hends

/-- A cache state holding one fresh text entry, for the C4 witness. -/
def sampleCachedFs : Fs :=
  fun p => if p = get_cache_path "https://example.com/page" none then some ⟨0, "hi"⟩ else none

/-- C4, witness: a concrete fresh hit is served through the text branch. -/
theorem c4_witness :
    is_cached sampleCachedFs 5 "https://example.com/page" 10 = true ∧
      serveFromCache "https://example.com/page" sampleCachedFs =
        (sampleCachedFs (get_cache_path "https://example.com/page" none)).map
          (fun f => ProxyResult.body f.content) :=
  ⟨by decide, (c4_cache_hits_are_html "https://example.com/page" sampleCachedFs 5 10).2.1
    (by decide)⟩

lemma lastSep_inj {x : Char} : ∀ (a c b d : List Char), x ∉ b → x ∉ d →
    a ++ x :: b = c ++ x :: d → a = c ∧ b = d := by
  intro a
  induction a with
  | nil =>
    intro c b d hb hd h
    cases c with
    | nil => simp only [List.nil_append, List.cons.injEq] at h; exact ⟨rfl, h.2⟩
    | cons y c2 =>
      simp only [List.nil_append, List.cons_append, List.cons.injEq] at h
      exfalso
      apply hb
      rw [h.2]
      exact List.mem_append_right c2 (List.mem_cons_self x d)
  | cons y a2 ih =>
    intro c b d hb hd h
    cases c with
    | nil =>
      simp only [List.cons_append, List.nil_append, List.cons.injEq] at h
      exfalso
      apply hd
      rw [← h.2]
      exact List.mem_append_right a2 (List.mem_cons_self x b)
    | cons z c2 =>
      simp only [List.cons_append, List.cons.injEq] at h
      obtain ⟨rfl, h2⟩ := h
      obtain ⟨h3, h4⟩ := ih c2 b d hb hd h2
      exact ⟨by rw [h3], h4⟩

/-- C3, counterexample: two distinct URLs (one containing the substitute
character `$`) resolve, with no content type, to the same cache path, so
the slash/colon substitution encoding is not collision-free. -/
theorem c3_counterexample :
    get_cache_path "https://example.com/a/b" none = get_cache_path "https://example.com/a$b" none ∧
      ("https://example.com/a/b" : String) ≠ "https://example.com/a$b" :=
  ⟨rfl, by decide⟩

/-- C3, amended: for URLs containing neither of the substitute characters
`$` and `#`, distinct URLs resolve, with any shared optional content type,
to distinct cache paths. -/
theorem c3_resolve_path_injective_amended (u1 u2 : String) (ct : Option String)
    (h1d : '$' ∉ u1.data) (h1h : '#' ∉ u1.data)
    (h2d : '$' ∉ u2.data) (h2h : '#' ∉ u2.data)
    (hne : u1 ≠ u2) : get_cache_path u1 ct ≠ get_cache_path u2 ct := by
  intro he
  obtain ⟨A1, hA1⟩ := get_cache_path_shape u1 ct
  obtain ⟨A2, hA2⟩ := get_cache_path_shape u2 ct
  have hd : (get_cache_path u1 ct).data = (get_cache_path u2 ct).data := by rw [he]
  rw [hA1, hA2] at hd
  obtain ⟨-, hfd⟩ := lastSep_inj A1 A2 _ _ (fname_no_slash u1 ct) (fname_no_slash u2 ct) hd
  obtain ⟨s1, hs1, hn1, -⟩ := cache_ext_shape u1 ct
  obtain ⟨s2, hs2, hn2, -⟩ := cache_ext_shape u2 ct
  rw [hs1, hs2] at hfd
  obtain ⟨henc, -⟩ := lastSep_inj (encode_url u1).data (encode_url u2).data s1 s2 hn1 hn2 hfd
  have hmap : u1.data.map (substColon ∘ substSlash) = u2.data.map (substColon ∘ substSlash) := by
    simpa [encode_url, List.map_map] using henc
  have hdata : u1.data = u2.data :=
    map_subst_inj u1.data u2.data
      (fun c hc => ⟨fun e => h1d (e ▸ hc), fun e => h1h (e ▸ hc)⟩)
      (fun c hc => ⟨fun e => h2d (e ▸ hc), fun e => h2h (e ▸ hc)⟩) hmap
  apply hne
  cases u1; cases u2; simp_all

/-- C3, witness: the amended injectivity at two concrete clean URLs that
share the content type `image/png`. -/
theorem c3_witness :
    '$' ∉ ("https://example.com/a" : String).data ∧ '#' ∉ ("https://example.com/a" : String).data ∧
      '$' ∉ ("https://example.com/b" : String).data ∧ '#' ∉ ("https://example.com/b" : String).data ∧
      ("https://example.com/a" : String) ≠ "https://example.com/b" ∧
      get_cache_path "https://example.com/a" (some "image/png") ≠
        get_cache_path "https://example.com/b" (some "image/png") :=
  ⟨by decide, by decide, by decide, by decide, by decide,
    c3_resolve_path_injective_amended "https://example.com/a" "https://example.com/b"
      (some "image/png") (by decide) (by decide) (by decide) (by decide) (by decide)⟩

/-! ## Claim C7: fetch failures render an error page and do not cache -/

/-- C7: when the fetch for an uncached, allowed URL ends in a non-200
status or a transport failure, the handler replies with the corresponding
error page carrying the (scheme-normalised) target URL and the failure
detail — the status code or the exception text — and the cache state is
returned unchanged. -/
theorem c7_fetch_errors_do_not_cache (rw : String → String → String) (fs : Fs) (now : Int)
    (url m ct b : String) (s : Nat)
    (hne : url ≠ "")
    (hallow : isAllowed (normalize_url url) ALLOW_URLS = true)
    (hmiss : is_cached fs now (normalize_url url) DEFAULT_CACHE_EXPIRY = false) :
    proxy_full_async rw fs now url (.transportError m) =
        (.exceptionPage (normalize_url url) m, fs) ∧
      (s ≠ 200 →
        proxy_full_async rw fs now url (.success s ct b) =
          (.httpErrorPage (normalize_url url) s, fs)) := by
  constructor
  · simp [proxy_full_async, fetch_and_cache, hne, hallow, hmiss]
  · intro hs
    simp [proxy_full_async, fetch_and_cache, hne, hallow, hmiss, hs]

/-- C7, witness: a 404 and a transport failure at a concrete uncached,
allowed URL both produce error pages and leave the (empty) cache as is. -/
theorem c7_witness :
    ("https://adventofcode.com/x" : String) ≠ "" ∧
      isAllowed (normalize_url "https://adventofcode.com/x") ALLOW_URLS = true ∧
      is_cached (fun _ => none) 0 (normalize_url "https://adventofcode.com/x")
        DEFAULT_CACHE_EXPIRY = false ∧
      proxy_full_async (fun h _ => h) (fun _ => none) 0 "https://adventofcode.com/x"
          (.transportError "boom") =
        (.exceptionPage (normalize_url "https://adventofcode.com/x") "boom", (fun _ => none)) ∧
      proxy_full_async (fun h _ => h) (fun _ => none) 0 "https://adventofcode.com/x"
          (.success 404 "text/html" "<p>x</p>") =
        (.httpErrorPage (normalize_url "https://adventofcode.com/x") 404, (fun _ => none)) := by
  have h := c7_fetch_errors_do_not_cache (fun h _ => h) (fun _ => none) 0
    "https://adventofcode.com/x" "boom" "text/html" "<p>x</p>" 404
    (by decide) (by decide) (by decide)
  exact ⟨by decide, by decide, by decide, h.1, h.2 (by decide)⟩

/-! ## Claim C2: rewriting of relative URLs -/

/-- C2, counterexample: on the claim's own example the attribute value is
`{prefix}/proxy?url=https%3A//adventofcode.com/2023/day/day/2`: the
scheme colon is percent-encoded but the slashes are not (`quote`'s default
keeps `/` safe), so it differs from the claimed `...%2F...` value. -/
theorem c2_counterexample :
    rewrite_url "day/2" "https://adventofcode.com/2023/day/1" =
        "/cachingproxy/proxy?url=https%3A//adventofcode.com/2023/day/day/2" ∧
      rewrite_url "day/2" "https://adventofcode.com/2023/day/1" ≠
        "/cachingproxy/proxy?url=https%3A%2F%2Fadventofcode.com%2F2023%2Fday%2Fday%2F2" :=
  ⟨by decide, by decide⟩

/-- C2, amended: a relative (non-skipped, scheme-less) href is resolved
against the base URL and wrapped as `{prefix}/proxy?url=` plus the
percent-encoding of the absolute URL in which `:` becomes `%3A` while
slashes stay literal; on the claim's example this yields
`/cachingproxy/proxy?url=https%3A//adventofcode.com/2023/day/day/2`. -/
theorem c2_relative_rewrite_amended :
    (∀ v base_url : String, v ≠ "" →
        pyStartswith v "javascript:" = false → pyStartswith v "data:" = false →
        pyStartswith v "#" = false → pyStartswith v "mailto:" = false →
        pyStartswith v "http://" = false → pyStartswith v "https://" = false →
        rewrite_url v base_url = PREFIX ++ "/proxy?url=" ++ pyQuote (pyUrljoin base_url v)) ∧
      rewrite_url "day/2" "https://adventofcode.com/2023/day/1" =
        "/cachingproxy/proxy?url=https%3A//adventofcode.com/2023/day/day/2" := by
  constructor
  · intro v base_url h0 h1 h2 h3 h4 h5 h6
    simp [rewrite_url, h0, h1, h2, h3, h4, h5, h6]
  · decide

/-- C2, witness: the amended rewrite shape at the claim's example. -/
theorem c2_witness :
    ("day/2" : String) ≠ "" ∧ pyStartswith "day/2" "javascript:" = false ∧
      pyStartswith "day/2" "data:" = false ∧ pyStartswith "day/2" "#" = false ∧
      pyStartswith "day/2" "mailto:" = false ∧ pyStartswith "day/2" "http://" = false ∧
      pyStartswith "day/2" "https://" = false ∧
      rewrite_url "day/2" "https://adventofcode.com/2023/day/1" =
        PREFIX ++ "/proxy?url=" ++
          pyQuote (pyUrljoin "https://adventofcode.com/2023/day/1" "day/2") :=
  ⟨by decide, by decide, by decide, by decide, by decide, by decide, by decide,
    c2_relative_rewrite_amended.1 "day/2" "https://adventofcode.com/2023/day/1" (by decide)
      (by decide) (by decide) (by decide) (by decide) (by decide) (by decide)⟩

/-! ## Claim C8: srcset handling -/

/-- The srcset rule as the specification words it (refinement model, for
comparison with `rewrite_srcset`): split on commas, tokenise each
candidate on whitespace (so consecutive or non-space whitespace separators
collapse), rewrite the first token, rejoin tokens with a single space. -/
def srcset_spec (srcset base_url : String) : String :=
  pyJoin ", " ((pySplitChar ',' srcset).map (fun cand =>
    match ((splitOnPredL pyWhitespace cand.data).map
        (fun l => (⟨l⟩ : String))).filter (fun t => t ≠ "") with
    | [] => ""
    | u :: rest => pyJoin " " (rewrite_url u base_url :: rest)))

lemma splitOnCharL_ne_nil (sep : Char) (l : List Char) : splitOnCharL sep l ≠ [] := by
  cases l with
  | nil => simp [splitOnCharL]
  | cons c cs =>
    unfold splitOnCharL
    cases h : splitOnCharL sep cs with
    | nil => simp
    | cons g gs => by_cases e : c = sep <;> simp [e]

lemma splitOnCharL_no_sep (sep : Char) : ∀ l : List Char, sep ∉ l → splitOnCharL sep l = [l] := by
  intro l
  induction l with
  | nil => intro _; rfl
  | cons c cs ih =>
    intro h
    have hc : ¬ c = sep := fun e => h (by rw [← e]; exact List.mem_cons_self c cs)
    have hcs : sep ∉ cs := fun hm => h (List.mem_cons_of_mem c hm)
    unfold splitOnCharL
    rw [ih hcs]
    simp [hc]

lemma splitOnCharL_cons (sep c : Char) (cs : List Char) :
    splitOnCharL sep (c :: cs) =
      match splitOnCharL sep cs with
      | [] => [[]]
      | g :: gs => if c = sep then [] :: g :: gs else (c :: g) :: gs := rfl

lemma splitOnCharL_append (sep : Char) : ∀ (a b : List Char), sep ∉ a →
    splitOnCharL sep (a ++ sep :: b) = a :: splitOnCharL sep b := by
  intro a
  induction a with
  | nil =>
    intro b _
    show splitOnCharL sep (sep :: b) = [] :: splitOnCharL sep b
    rw [splitOnCharL_cons]
    cases h : splitOnCharL sep b with
    | nil => exact absurd h (splitOnCharL_ne_nil sep b)
    | cons g gs => simp
  | cons c cs ih =>
    intro b h
    have hc : ¬ c = sep := fun e => h (by rw [← e]; exact List.mem_cons_self c cs)
    have hcs : sep ∉ cs := fun hm => h (List.mem_cons_of_mem c hm)
    show splitOnCharL sep (c :: (cs ++ sep :: b)) = (c :: cs) :: splitOnCharL sep b
    rw [splitOnCharL_cons, ih b hcs]
    simp [hc]

lemma dropWhile_ws_noop (l : List Char)
    (h : ∀ c, l.head? = some c → pyWhitespace c = false) :
    l.dropWhile pyWhitespace = l := by
  cases l with
  | nil => rfl
  | cons c cs =>
    rw [List.dropWhile_cons, if_neg (by simp [h c rfl])]

lemma stripList_noop (l : List Char)
    (hh : ∀ c, l.head? = some c → pyWhitespace c = false)
    (hl : ∀ c, l.getLast? = some c → pyWhitespace c = false) :
    stripList l = l := by
  unfold stripList
  rw [dropWhile_ws_noop l hh,
    dropWhile_ws_noop l.reverse (fun c hc => hl c (by rwa [List.head?_reverse] at hc)),
    List.reverse_reverse]

lemma stripList_cons_ws (c : Char) (l : List Char) (h : pyWhitespace c = true) :
    stripList (c :: l) = stripList l := by
  unfold stripList
  rw [List.dropWhile_cons, if_pos h]

/-- C8, counterexample: on a candidate with two consecutive spaces the
code splits on single spaces (keeping the empty token), so its output
keeps the double space, while the claim's whitespace tokenisation would
collapse it; the two disagree, refuting the claimed splitting rule. -/
theorem c8_counterexample :
    rewrite_srcset "a.png  2x" "https://example.com/" ≠
        srcset_spec "a.png  2x" "https://example.com/" ∧
      rewrite_srcset "a.png  2x" "https://example.com/" =
        rewrite_url "a.png" "https://example.com/" ++ "  2x" ∧
      srcset_spec "a.png  2x" "https://example.com/" =
        rewrite_url "a.png" "https://example.com/" ++ " 2x" :=
  ⟨by decide, by decide, by decide⟩

/-- C8, amended: the rewriter splits the attribute on commas, strips each
candidate, splits it on single space characters (empty tokens from
consecutive separators are preserved), rewrites only the first token and
rejoins with `" "` and `", "`; for candidates of the well-formed shape
`url SP descriptor` this gives exactly the claimed output, descriptors and
order preserved. -/
theorem c8_srcset_amended (u1 d1 u2 d2 base_url : String)
    (hu1 : u1.data ≠ []) (hd1 : d1.data ≠ []) (hu2 : u2.data ≠ []) (hd2 : d2.data ≠ [])
    (hcu1 : ∀ c ∈ u1.data, c ≠ ',' ∧ pyWhitespace c = false)
    (hcd1 : ∀ c ∈ d1.data, c ≠ ',' ∧ pyWhitespace c = false)
    (hcu2 : ∀ c ∈ u2.data, c ≠ ',' ∧ pyWhitespace c = false)
    (hcd2 : ∀ c ∈ d2.data, c ≠ ',' ∧ pyWhitespace c = false) :
    rewrite_srcset (u1 ++ " " ++ d1 ++ ", " ++ u2 ++ " " ++ d2) base_url =
      rewrite_url u1 base_url ++ " " ++ d1 ++ ", " ++ rewrite_url u2 base_url ++ " " ++ d2 := by
  have hspace : ∀ (s : String), (∀ c ∈ s.data, c ≠ ',' ∧ pyWhitespace c = false) →
      ' ' ∉ s.data := by
    intro s hs hmem
    exact absurd (hs ' ' hmem).2 (by decide)
  have hA1data : (u1 ++ " " ++ d1).data = u1.data ++ ' ' :: d1.data := by
    simp [String.data_append]
  have hA2data : (u2 ++ " " ++ d2).data = u2.data ++ ' ' :: d2.data := by
    simp [String.data_append]
  have hA1head : ∀ c, (u1.data ++ ' ' :: d1.data).head? = some c → pyWhitespace c = false := by
    intro c hc
    cases hu : u1.data with
    | nil => exact absurd hu hu1
    | cons x xs =>
      rw [hu] at hc
      simp at hc
      rw [← hc]
      exact (hcu1 x (by rw [hu]; exact List.mem_cons_self _ _)).2
  have hA1last : ∀ c, (u1.data ++ ' ' :: d1.data).getLast? = some c →
      pyWhitespace c = false := by
    intro c hc
    rw [List.getLast?_append_of_ne_nil _ (by simp),
      show (' ' :: d1.data) = [' '] ++ d1.data from rfl,
      List.getLast?_append_of_ne_nil _ hd1] at hc
    exact (hcd1 c (mem_of_getLastEq hc)).2
  have hA2head : ∀ c, (u2.data ++ ' ' :: d2.data).head? = some c → pyWhitespace c = false := by
    intro c hc
    cases hu : u2.data with
    | nil => exact absurd hu hu2
    | cons x xs =>
      rw [hu] at hc
      simp at hc
      rw [← hc]
      exact (hcu2 x (by rw [hu]; exact List.mem_cons_self _ _)).2
  have hA2last : ∀ c, (u2.data ++ ' ' :: d2.data).getLast? = some c →
      pyWhitespace c = false := by
    intro c hc
    rw [List.getLast?_append_of_ne_nil _ (by simp),
      show (' ' :: d2.data) = [' '] ++ d2.data from rfl,
      List.getLast?_append_of_ne_nil _ hd2] at hc
    exact (hcd2 c (mem_of_getLastEq hc)).2
  have hstrip1 : pyStrip (u1 ++ " " ++ d1) = u1 ++ " " ++ d1 := by
    show (⟨stripList (u1 ++ " " ++ d1).data⟩ : String) = u1 ++ " " ++ d1
    rw [hA1data, stripList_noop _ hA1head hA1last, ← hA1data]
  have hstrip2 : pyStrip (" " ++ u2 ++ " " ++ d2) = u2 ++ " " ++ d2 := by
    show (⟨stripList (" " ++ u2 ++ " " ++ d2).data⟩ : String) = u2 ++ " " ++ d2
    have hBdata : (" " ++ u2 ++ " " ++ d2).data = ' ' :: (u2.data ++ ' ' :: d2.data) := by
      simp [String.data_append]
    rw [hBdata, stripList_cons_ws _ _ (by decide),
      stripList_noop _ hA2head hA2last, ← hA2data]
  have hsplitA1 : pySplitChar ' ' (u1 ++ " " ++ d1) = [u1, d1] := by
    unfold pySplitChar
    rw [hA1data, splitOnCharL_append ' ' _ _ (hspace u1 hcu1),
      splitOnCharL_no_sep ' ' _ (hspace d1 hcd1)]
    rfl
  have hsplitA2 : pySplitChar ' ' (u2 ++ " " ++ d2) = [u2, d2] := by
    unfold pySplitChar
    rw [hA2data, splitOnCharL_append ' ' _ _ (hspace u2 hcu2),
      splitOnCharL_no_sep ' ' _ (hspace d2 hcd2)]
    rfl
  have hsplitComma :
      pySplitChar ',' (u1 ++ " " ++ d1 ++ ", " ++ u2 ++ " " ++ d2) =
        [u1 ++ " " ++ d1, " " ++ u2 ++ " " ++ d2] := by
    unfold pySplitChar
    have hS : (u1 ++ " " ++ d1 ++ ", " ++ u2 ++ " " ++ d2).data =
        (u1 ++ " " ++ d1).data ++ ',' :: (" " ++ u2 ++ " " ++ d2).data := by
      simp [String.data_append]
    have hAnc : ',' ∉ (u1 ++ " " ++ d1).data := by
      rw [hA1data]
      intro hmem
      rcases List.mem_append.mp hmem with hm | hm
      · exact (hcu1 _ hm).1 rfl
      · rcases List.mem_cons.mp hm with hm | hm
        · exact absurd hm (by decide)
        · exact (hcd1 _ hm).1 rfl
    have hBnc : ',' ∉ (" " ++ u2 ++ " " ++ d2).data := by
      have hBdata : (" " ++ u2 ++ " " ++ d2).data = ' ' :: (u2.data ++ ' ' :: d2.data) := by
        simp [String.data_append]
      rw [hBdata]
      intro hmem
      rcases List.mem_cons.mp hmem with hm | hm
      · exact absurd hm (by decide)
      · rcases List.mem_append.mp hm with hm | hm
        · exact (hcu2 _ hm).1 rfl
        · rcases List.mem_cons.mp hm with hm | hm
          · exact absurd hm (by decide)
          · exact (hcd2 _ hm).1 rfl
    rw [hS, splitOnCharL_append ',' _ _ hAnc, splitOnCharL_no_sep ',' _ hBnc]
    rfl
  unfold rewrite_srcset
  rw [hsplitComma]
  simp only [List.map_cons, List.map_nil, hstrip1, hstrip2, hsplitA1, hsplitA2]
  simp [pyJoin, String.append_assoc]

/-- C8, witness: the amended splitting rule at the claim's example input
`a.png 1x, b.png 2x`. -/
theorem c8_witness :
    rewrite_srcset "a.png 1x, b.png 2x" "https://example.com/" =
      rewrite_url "a.png" "https://example.com/" ++ " " ++ "1x" ++ ", " ++
        rewrite_url "b.png" "https://example.com/" ++ " " ++ "2x" :=
  c8_srcset_amended "a.png" "1x" "b.png" "2x" "https://example.com/"
    (by decide) (by decide) (by decide) (by decide)
    (by decide) (by decide) (by decide) (by decide)

/-! ## Claim C5 support: structural lemmas about the rewrite pipeline -/

lemma countTagL_append (name : String) (l1 l2 : List Node) :
    countTagL name (l1 ++ l2) = countTagL name l1 + countTagL name l2 := by
  induction l1 with
  | nil => simp [countTagL]
  | cons x xs ih => simp [countTagL, ih, Nat.add_assoc]

lemma countViewportL_append (l1 l2 : List Node) :
    countViewportL (l1 ++ l2) = countViewportL l1 + countViewportL l2 := by
  induction l1 with
  | nil => simp [countViewportL]
  | cons x xs ih => simp [countViewportL, ih, Nat.add_assoc]

mutual

theorem countTagN_mapAttrs (f : String → Attrs → Attrs) (name : String) :
    ∀ x : Node, countTagN name (mapAttrsNode f x) = countTagN name x
  | .text _ => rfl
  | .elem n a c => by
    simp [mapAttrsNode, countTagN, countTagL_mapAttrs f name c]

theorem countTagL_mapAttrs (f : String → Attrs → Attrs) (name : String) :
    ∀ l : List Node, countTagL name (mapAttrsList f l) = countTagL name l
  | [] => rfl
  | x :: xs => by
    simp [mapAttrsList, countTagL, countTagN_mapAttrs f name x, countTagL_mapAttrs f name xs]

end

mutual

theorem countViewportN_mapAttrs (f : String → Attrs → Attrs) (hm : ∀ a, f "meta" a = a) :
    ∀ x : Node, countViewportN (mapAttrsNode f x) = countViewportN x
  | .text _ => rfl
  | .elem n a c => by
    by_cases hn : n = "meta"
    · subst hn
      simp [mapAttrsNode, countViewportN, hm a, countViewportL_mapAttrs f hm c]
    · have hb : (n == "meta") = false := by simp [hn]
      simp [mapAttrsNode, countViewportN, hb, countViewportL_mapAttrs f hm c]

theorem countViewportL_mapAttrs (f : String → Attrs → Attrs) (hm : ∀ a, f "meta" a = a) :
    ∀ l : List Node, countViewportL (mapAttrsList f l) = countViewportL l
  | [] => rfl
  | x :: xs => by
    simp [mapAttrsList, countViewportL, countViewportN_mapAttrs f hm x,
      countViewportL_mapAttrs f hm xs]

end

mutual

theorem countTagN_eq_zero_iff (name : String) :
    ∀ x : Node, countTagN name x = 0 ↔ firstElemN name x = none
  | .text s => by simp [countTagN, firstElemN]
  | .elem n a c => by
    by_cases hn : (n == name) = true
    · simp [countTagN, firstElemN, hn]
    · simp [countTagN, firstElemN, hn, countTagL_eq_zero_iff name c]

theorem countTagL_eq_zero_iff (name : String) :
    ∀ l : List Node, countTagL name l = 0 ↔ firstElemL name l = none
  | [] => by simp [countTagL, firstElemL]
  | x :: xs => by
    cases h : firstElemN name x with
    | some r =>
      have hx : countTagN name x ≠ 0 := by
        intro e
        rw [(countTagN_eq_zero_iff name x).mp e] at h
        exact Option.noConfusion h
      simp [countTagL, firstElemL, h]
      omega
    | none =>
      have h0 : countTagN name x = 0 := (countTagN_eq_zero_iff name x).mpr h
      simp [countTagL, firstElemL, h, h0, countTagL_eq_zero_iff name xs]

end

mutual

theorem countTagN_setAt (f : String → Attrs → Attrs) (name : String) :
    ∀ (x : Node) (tgt : Nat), countTagN name (setAtN f x tgt) = countTagN name x
  | .text _, _ => rfl
  | .elem n a c, tgt => by
    by_cases ht : tgt = 0
    · simp [setAtN, ht, countTagN]
    · simp [setAtN, ht, countTagN, countTagL_setAt f name c (tgt - 1)]

theorem countTagL_setAt (f : String → Attrs → Attrs) (name : String) :
    ∀ (l : List Node) (tgt : Nat), countTagL name (setAtL f l tgt) = countTagL name l
  | [], _ => rfl
  | x :: xs, tgt => by
    by_cases ht : tgt < elemCountN x
    · simp [setAtL, ht, countTagL, countTagN_setAt f name x tgt]
    · simp [setAtL, ht, countTagL, countTagL_setAt f name xs (tgt - elemCountN x)]

end

mutual

theorem countViewportN_setAt (f : String → Attrs → Attrs) (hm : ∀ a, f "meta" a = a) :
    ∀ (x : Node) (tgt : Nat), countViewportN (setAtN f x tgt) = countViewportN x
  | .text _, _ => rfl
  | .elem n a c, tgt => by
    by_cases ht : tgt = 0
    · by_cases hn : n = "meta"
      · subst hn; simp [setAtN, ht, countViewportN, hm a]
      · have hb : (n == "meta") = false := by simp [hn]
        simp [setAtN, ht, countViewportN, hb]
    · simp [setAtN, ht, countViewportN, countViewportL_setAt f hm c (tgt - 1)]

theorem countViewportL_setAt (f : String → Attrs → Attrs) (hm : ∀ a, f "meta" a = a) :
    ∀ (l : List Node) (tgt : Nat), countViewportL (setAtL f l tgt) = countViewportL l
  | [], _ => rfl
  | x :: xs, tgt => by
    by_cases ht : tgt < elemCountN x
    · simp [setAtL, ht, countViewportL, countViewportN_setAt f hm x tgt]
    · simp [setAtL, ht, countViewportL, countViewportL_setAt f hm xs (tgt - elemCountN x)]

end

mutual

theorem countTagN_setBaseTarget (name : String) :
    ∀ x : Node, countTagN name (setBaseTargetN x) = countTagN name x
  | .text _ => rfl
  | .elem n a c => by
    by_cases hn : (n == "base") = true
    · simp [setBaseTargetN, hn, countTagN]
    · simp [setBaseTargetN, hn, countTagN, countTagL_setBaseTarget name c]

theorem countTagL_setBaseTarget (name : String) :
    ∀ l : List Node, countTagL name (setBaseTargetL l) = countTagL name l
  | [] => rfl
  | x :: xs => by
    by_cases hb : countTagN "base" x = 0
    · simp [setBaseTargetL, hb, countTagL, countTagL_setBaseTarget name xs]
    · simp [setBaseTargetL, hb, countTagL, countTagN_setBaseTarget name x]

end

mutual

theorem countViewportN_setBaseTarget :
    ∀ x : Node, countViewportN (setBaseTargetN x) = countViewportN x
  | .text _ => rfl
  | .elem n a c => by
    by_cases hn : (n == "base") = true
    · have hnb : n = "base" := by simpa using hn
      subst hnb
      simp [setBaseTargetN, countViewportN, show (("base" : String) == "meta") = false by decide]
    · simp [setBaseTargetN, hn, countViewportN, countViewportL_setBaseTarget c]

theorem countViewportL_setBaseTarget :
    ∀ l : List Node, countViewportL (setBaseTargetL l) = countViewportL l
  | [] => rfl
  | x :: xs => by
    by_cases hb : countTagN "base" x = 0
    · simp [setBaseTargetL, hb, countViewportL, countViewportL_setBaseTarget xs]
    · simp [setBaseTargetL, hb, countViewportL, countViewportN_setBaseTarget x]

end

mutual

theorem countTagN_insertIntoHead (name : String) :
    ∀ x : Node, countTagN "head" x ≠ 0 →
      countTagN name (insertIntoHeadN x) =
        countTagN name x + countTagN name newBaseTag + countTagN name newMetaTag
  | .text _ => by intro h; exact absurd rfl h
  | .elem n a c => by
    intro h
    by_cases hn : (n == "head") = true
    · simp [insertIntoHeadN, hn, countTagN, countTagL, countTagL_append]
      omega
    · have hc : countTagL "head" c ≠ 0 := by
        intro e; apply h; simp [countTagN, hn, e]
      simp [insertIntoHeadN, hn, countTagN, countTagL_insertIntoHead name c hc]
      omega

theorem countTagL_insertIntoHead (name : String) :
    ∀ l : List Node, countTagL "head" l ≠ 0 →
      countTagL name (insertIntoHeadL l) =
        countTagL name l + countTagN name newBaseTag + countTagN name newMetaTag
  | [] => by intro h; exact absurd rfl h
  | x :: xs => by
    intro h
    by_cases hx : countTagN "head" x = 0
    · have hxs : countTagL "head" xs ≠ 0 := by
        intro e; apply h; simp [countTagL, hx, e]
      simp [insertIntoHeadL, hx, countTagL, countTagL_insertIntoHead name xs hxs]
      omega
    · simp [insertIntoHeadL, hx, countTagL, countTagN_insertIntoHead name x hx]
      omega

end

lemma countViewportN_elem (n : String) (a : Attrs) (c : List Node) :
    countViewportN (.elem n a c) =
      (if n == "meta" && getAttr a "name" == some "viewport" then 1 else 0) +
        countViewportL c := rfl

lemma countViewportL_cons (x : Node) (xs : List Node) :
    countViewportL (x :: xs) = countViewportN x + countViewportL xs := rfl

mutual

theorem countViewportN_insertIntoHead :
    ∀ x : Node, countTagN "head" x ≠ 0 →
      countViewportN (insertIntoHeadN x) = countViewportN x + 1
  | .text _ => by intro h; exact absurd rfl h
  | .elem n a c => by
    intro h
    by_cases hn : (n == "head") = true
    · have hstep : insertIntoHeadN (Node.elem n a c) =
          Node.elem n a (newBaseTag :: (c ++ [newMetaTag])) := by
        simp [insertIntoHeadN, hn]
      rw [hstep]
      simp only [countViewportN_elem, countViewportL_cons, countViewportL_append]
      rw [show countViewportN newBaseTag = 0 from rfl,
        show countViewportN newMetaTag = 1 from rfl,
        show countViewportL [] = 0 from rfl]
      omega
    · have hc : countTagL "head" c ≠ 0 := by
        intro e; apply h; simp [countTagN, hn, e]
      simp [insertIntoHeadN, hn, countViewportN, countViewportL_insertIntoHead c hc]
      omega

theorem countViewportL_insertIntoHead :
    ∀ l : List Node, countTagL "head" l ≠ 0 →
      countViewportL (insertIntoHeadL l) = countViewportL l + 1
  | [] => by intro h; exact absurd rfl h
  | x :: xs => by
    intro h
    by_cases hx : countTagN "head" x = 0
    · have hxs : countTagL "head" xs ≠ 0 := by
        intro e; apply h; simp [countTagL, hx, e]
      simp [insertIntoHeadL, hx, countViewportL, countViewportL_insertIntoHead xs hxs]
      omega
    · simp [insertIntoHeadL, hx, countViewportL, countViewportN_insertIntoHead x hx]
      omega

end

mutual

theorem countTagN_insertHeadIntoHtml (name : String) :
    ∀ x : Node, countTagN "html" x ≠ 0 →
      countTagN name (insertHeadIntoHtmlN x) =
        countTagN name x + countTagN name (Node.elem "head" [] [newBaseTag])
  | .text _ => by intro h; exact absurd rfl h
  | .elem n a c => by
    intro h
    by_cases hn : (n == "html") = true
    · simp [insertHeadIntoHtmlN, hn, countTagN, countTagL]
      omega
    · have hc : countTagL "html" c ≠ 0 := by
        intro e; apply h; simp [countTagN, hn, e]
      simp [insertHeadIntoHtmlN, hn, countTagN, countTagL_insertHeadIntoHtml name c hc]
      omega

theorem countTagL_insertHeadIntoHtml (name : String) :
    ∀ l : List Node, countTagL "html" l ≠ 0 →
      countTagL name (insertHeadIntoHtmlL l) =
        countTagL name l + countTagN name (Node.elem "head" [] [newBaseTag])
  | [] => by intro h; exact absurd rfl h
  | x :: xs => by
    intro h
    by_cases hx : countTagN "html" x = 0
    · have hxs : countTagL "html" xs ≠ 0 := by
        intro e; apply h; simp [countTagL, hx, e]
      simp [insertHeadIntoHtmlL, hx, countTagL, countTagL_insertHeadIntoHtml name xs hxs]
      omega
    · simp [insertHeadIntoHtmlL, hx, countTagL, countTagN_insertHeadIntoHtml name x hx]
      omega

end

mutual

theorem countViewportN_insertHeadIntoHtml :
    ∀ x : Node, countTagN "html" x ≠ 0 →
      countViewportN (insertHeadIntoHtmlN x) = countViewportN x
  | .text _ => by intro h; exact absurd rfl h
  | .elem n a c => by
    intro h
    by_cases hn : (n == "html") = true
    · have hstep : insertHeadIntoHtmlN (Node.elem n a c) =
          Node.elem n a (Node.elem "head" [] [newBaseTag] :: c) := by
        simp [insertHeadIntoHtmlN, hn]
      rw [hstep]
      simp only [countViewportN_elem, countViewportL_cons]
      rw [show (("head" : String) == "meta" && getAttr ([] : Attrs) "name" == some "viewport") =
          false from rfl,
        show countViewportN newBaseTag = 0 from rfl,
        show countViewportL ([] : List Node) = 0 from rfl]
      simp
    · have hc : countTagL "html" c ≠ 0 := by
        intro e; apply h; simp [countTagN, hn, e]
      simp [insertHeadIntoHtmlN, hn, countViewportN, countViewportL_insertHeadIntoHtml c hc]

theorem countViewportL_insertHeadIntoHtml :
    ∀ l : List Node, countTagL "html" l ≠ 0 →
      countViewportL (insertHeadIntoHtmlL l) = countViewportL l
  | [] => by intro h; exact absurd rfl h
  | x :: xs => by
    intro h
    by_cases hx : countTagN "html" x = 0
    · have hxs : countTagL "html" xs ≠ 0 := by
        intro e; apply h; simp [countTagL, hx, e]
      simp [insertHeadIntoHtmlL, hx, countViewportL, countViewportL_insertHeadIntoHtml xs hxs]
    · simp [insertHeadIntoHtmlL, hx, countViewportL, countViewportN_insertHeadIntoHtml x hx]

end

/-! C5 support, continued: how each stage transforms the first matching
element. -/

lemma firstElemN_elem (name n : String) (a : Attrs) (c : List Node) :
    firstElemN name (.elem n a c) =
      if n == name then some (.elem n a c) else firstElemL name c := rfl

lemma firstElemL_cons (name : String) (x : Node) (xs : List Node) :
    firstElemL name (x :: xs) =
      match firstElemN name x with
      | some r => some r
      | none => firstElemL name xs := rfl

lemma getAttr_setAttr (a : Attrs) (k v : String) : getAttr (setAttr a k v) k = some v := by
  induction a with
  | nil => simp [setAttr, getAttr]
  | cons p rest ih =>
    by_cases h : (p.1 == k) = true
    · simp [setAttr, getAttr, h]
    · simp only [setAttr, h]
      simp [getAttr, List.find?] at ih ⊢
      simp [h, ih]

mutual

theorem firstElemN_mapAttrs (f : String → Attrs → Attrs) (name : String) :
    ∀ x : Node, firstElemN name (mapAttrsNode f x) = (firstElemN name x).map (mapAttrsNode f)
  | .text _ => rfl
  | .elem n a c => by
    by_cases hn : (n == name) = true
    · simp [mapAttrsNode, firstElemN, hn]
    · simp [mapAttrsNode, firstElemN, hn, firstElemL_mapAttrs f name c]

theorem firstElemL_mapAttrs (f : String → Attrs → Attrs) (name : String) :
    ∀ l : List Node, firstElemL name (mapAttrsList f l) = (firstElemL name l).map (mapAttrsNode f)
  | [] => rfl
  | x :: xs => by
    rw [show mapAttrsList f (x :: xs) = mapAttrsNode f x :: mapAttrsList f xs from rfl,
      firstElemL_cons, firstElemL_cons, firstElemN_mapAttrs f name x]
    cases h : firstElemN name x with
    | some r => simp
    | none => simp [firstElemL_mapAttrs f name xs]

end

mutual

theorem firstElemN_setAt (f : String → Attrs → Attrs) (name : String)
    (hg : ∀ a, f name a = a) :
    ∀ (x : Node) (tgt : Nat) (a : Attrs) (c : List Node),
      firstElemN name x = some (.elem name a c) →
      ∃ c2, firstElemN name (setAtN f x tgt) = some (.elem name a c2)
  | .text _, _, a, c => by intro h; exact absurd h (by simp [firstElemN])
  | .elem n a0 c0, tgt, a, c => by
    intro h
    by_cases hn : (n == name) = true
    · rw [firstElemN_elem, if_pos hn] at h
      injection h with h2
      injection h2 with e1 e2 e3
      subst e1; subst e2; subst e3
      by_cases ht : tgt = 0
      · exact ⟨c0, by simp [setAtN, ht, firstElemN_elem, hn, hg a0]⟩
      · exact ⟨setAtL f c0 (tgt - 1), by simp [setAtN, ht, firstElemN_elem, hn]⟩
    · rw [firstElemN_elem, if_neg hn] at h
      by_cases ht : tgt = 0
      · exact ⟨c, by simp [setAtN, ht, firstElemN_elem, hn]; exact h⟩
      · obtain ⟨c2, hc2⟩ := firstElemL_setAt f name hg c0 (tgt - 1) a c h
        exact ⟨c2, by simp [setAtN, ht, firstElemN_elem, hn]; exact hc2⟩

theorem firstElemL_setAt (f : String → Attrs → Attrs) (name : String)
    (hg : ∀ a, f name a = a) :
    ∀ (l : List Node) (tgt : Nat) (a : Attrs) (c : List Node),
      firstElemL name l = some (.elem name a c) →
      ∃ c2, firstElemL name (setAtL f l tgt) = some (.elem name a c2)
  | [], _, a, c => by intro h; exact absurd h (by simp [firstElemL])
  | x :: xs, tgt, a, c => by
    intro h
    rw [firstElemL_cons] at h
    by_cases ht : tgt < elemCountN x
    · cases hx : firstElemN name x with
      | some r =>
        rw [hx] at h
        injection h with h2
        subst h2
        obtain ⟨c2, hc2⟩ := firstElemN_setAt f name hg x tgt a c hx
        exact ⟨c2, by simp [setAtL, ht, firstElemL_cons, hc2]⟩
      | none =>
        rw [hx] at h
        have h0 : countTagN name x = 0 := (countTagN_eq_zero_iff name x).mpr hx
        have h0s : firstElemN name (setAtN f x tgt) = none :=
          (countTagN_eq_zero_iff name _).mp (by rw [countTagN_setAt]; exact h0)
        exact ⟨c, by simp [setAtL, ht, firstElemL_cons, h0s]; exact h⟩
    · cases hx : firstElemN name x with
      | some r =>
        rw [hx] at h
        injection h with h2
        subst h2
        exact ⟨c, by simp [setAtL, ht, firstElemL_cons, hx]⟩
      | none =>
        rw [hx] at h
        obtain ⟨c2, hc2⟩ := firstElemL_setAt f name hg xs (tgt - elemCountN x) a c h
        exact ⟨c2, by simp [setAtL, ht, firstElemL_cons, hx]; exact hc2⟩

end

mutual

theorem firstElemN_setBaseTarget :
    ∀ (x : Node) (a : Attrs) (c : List Node),
      firstElemN "base" x = some (.elem "base" a c) →
      firstElemN "base" (setBaseTargetN x) =
        some (.elem "base" (setAttr a "target" "_self") c)
  | .text _, a, c => by intro h; exact absurd h (by simp [firstElemN])
  | .elem n a0 c0, a, c => by
    intro h
    by_cases hn : (n == "base") = true
    · rw [firstElemN_elem, if_pos hn] at h
      injection h with h2
      injection h2 with e1 e2 e3
      subst e1; subst e2; subst e3
      simp [setBaseTargetN, hn, firstElemN_elem]
    · rw [firstElemN_elem, if_neg hn] at h
      have hrec := firstElemL_setBaseTarget c0 a c h
      simp [setBaseTargetN, hn, firstElemN_elem]
      exact hrec

theorem firstElemL_setBaseTarget :
    ∀ (l : List Node) (a : Attrs) (c : List Node),
      firstElemL "base" l = some (.elem "base" a c) →
      firstElemL "base" (setBaseTargetL l) =
        some (.elem "base" (setAttr a "target" "_self") c)
  | [], a, c => by intro h; exact absurd h (by simp [firstElemL])
  | x :: xs, a, c => by
    intro h
    rw [firstElemL_cons] at h
    cases hx : firstElemN "base" x with
    | some r =>
      rw [hx] at h
      injection h with h2
      subst h2
      have hnz : ¬ countTagN "base" x = 0 := by
        intro e
        rw [(countTagN_eq_zero_iff "base" x).mp e] at hx
        exact Option.noConfusion hx
      have hrec := firstElemN_setBaseTarget x a c hx
      simp [setBaseTargetL, hnz, firstElemL_cons, hrec]
    | none =>
      rw [hx] at h
      have hz : countTagN "base" x = 0 := (countTagN_eq_zero_iff "base" x).mpr hx
      have hrec := firstElemL_setBaseTarget xs a c h
      simp [setBaseTargetL, hz, firstElemL_cons, hx, hrec]

end

mutual

theorem firstElemN_insertIntoHead :
    ∀ (x : Node) (a : Attrs) (c : List Node),
      firstElemN "head" x = some (.elem "head" a c) →
      firstElemN "head" (insertIntoHeadN x) =
        some (.elem "head" a (newBaseTag :: (c ++ [newMetaTag])))
  | .text _, a, c => by intro h; exact absurd h (by simp [firstElemN])
  | .elem n a0 c0, a, c => by
    intro h
    by_cases hn : (n == "head") = true
    · rw [firstElemN_elem, if_pos hn] at h
      injection h with h2
      injection h2 with e1 e2 e3
      subst e1; subst e2; subst e3
      simp [insertIntoHeadN, hn, firstElemN_elem]
    · rw [firstElemN_elem, if_neg hn] at h
      have hrec := firstElemL_insertIntoHead c0 a c h
      simp [insertIntoHeadN, hn, firstElemN_elem]
      exact hrec

theorem firstElemL_insertIntoHead :
    ∀ (l : List Node) (a : Attrs) (c : List Node),
      firstElemL "head" l = some (.elem "head" a c) →
      firstElemL "head" (insertIntoHeadL l) =
        some (.elem "head" a (newBaseTag :: (c ++ [newMetaTag])))
  | [], a, c => by intro h; exact absurd h (by simp [firstElemL])
  | x :: xs, a, c => by
    intro h
    rw [firstElemL_cons] at h
    cases hx : firstElemN "head" x with
    | some r =>
      rw [hx] at h
      injection h with h2
      subst h2
      have hnz : ¬ countTagN "head" x = 0 := by
        intro e
        rw [(countTagN_eq_zero_iff "head" x).mp e] at hx
        exact Option.noConfusion hx
      have hrec := firstElemN_insertIntoHead x a c hx
      simp [insertIntoHeadL, hnz, firstElemL_cons, hrec]
    | none =>
      rw [hx] at h
      have hz : countTagN "head" x = 0 := (countTagN_eq_zero_iff "head" x).mpr hx
      have hrec := firstElemL_insertIntoHead xs a c h
      simp [insertIntoHeadL, hz, firstElemL_cons, hx, hrec]

end

mutual

theorem firstElemN_insertHeadIntoHtml :
    ∀ (x : Node) (a : Attrs) (c : List Node),
      firstElemN "html" x = some (.elem "html" a c) →
      firstElemN "html" (insertHeadIntoHtmlN x) =
        some (.elem "html" a (Node.elem "head" [] [newBaseTag] :: c))
  | .text _, a, c => by intro h; exact absurd h (by simp [firstElemN])
  | .elem n a0 c0, a, c => by
    intro h
    by_cases hn : (n == "html") = true
    · rw [firstElemN_elem, if_pos hn] at h
      injection h with h2
      injection h2 with e1 e2 e3
      subst e1; subst e2; subst e3
      simp [insertHeadIntoHtmlN, hn, firstElemN_elem]
    · rw [firstElemN_elem, if_neg hn] at h
      have hrec := firstElemL_insertHeadIntoHtml c0 a c h
      simp [insertHeadIntoHtmlN, hn, firstElemN_elem]
      exact hrec

theorem firstElemL_insertHeadIntoHtml :
    ∀ (l : List Node) (a : Attrs) (c : List Node),
      firstElemL "html" l = some (.elem "html" a c) →
      firstElemL "html" (insertHeadIntoHtmlL l) =
        some (.elem "html" a (Node.elem "head" [] [newBaseTag] :: c))
  | [], a, c => by intro h; exact absurd h (by simp [firstElemL])
  | x :: xs, a, c => by
    intro h
    rw [firstElemL_cons] at h
    cases hx : firstElemN "html" x with
    | some r =>
      rw [hx] at h
      injection h with h2
      subst h2
      have hnz : ¬ countTagN "html" x = 0 := by
        intro e
        rw [(countTagN_eq_zero_iff "html" x).mp e] at hx
        exact Option.noConfusion hx
      have hrec := firstElemN_insertHeadIntoHtml x a c hx
      simp [insertHeadIntoHtmlL, hnz, firstElemL_cons, hrec]
    | none =>
      rw [hx] at h
      have hz : countTagN "html" x = 0 := (countTagN_eq_zero_iff "html" x).mpr hx
      have hrec := firstElemL_insertHeadIntoHtml xs a c h
      simp [insertHeadIntoHtmlL, hz, firstElemL_cons, hx, hrec]

end

mutual

theorem firstElemN_shape (name : String) :
    ∀ (x : Node) (r : Node), firstElemN name x = some r → ∃ a c, r = Node.elem name a c
  | .text _, r => by intro h; exact absurd h (by simp [firstElemN])
  | .elem n a c, r => by
    intro h
    by_cases hn : (n == name) = true
    · rw [firstElemN_elem, if_pos hn] at h
      injection h with h2
      have hne : n = name := by simpa using hn
      exact ⟨a, c, by rw [← h2, hne]⟩
    · rw [firstElemN_elem, if_neg hn] at h
      exact firstElemL_shape name c r h

theorem firstElemL_shape (name : String) :
    ∀ (l : List Node) (r : Node), firstElemL name l = some r → ∃ a c, r = Node.elem name a c
  | [], r => by intro h; exact absurd h (by simp [firstElemL])
  | x :: xs, r => by
    intro h
    rw [firstElemL_cons] at h
    cases hx : firstElemN name x with
    | some s =>
      rw [hx] at h
      injection h with h2
      subst h2
      exact firstElemN_shape name x _ hx
    | none =>
      rw [hx] at h
      exact firstElemL_shape name xs r h

end

lemma firstElemL_of_count (name : String) (l : List Node) (h : countTagL name l ≠ 0) :
    ∃ a c, firstElemL name l = some (.elem name a c) := by
  cases hf : firstElemL name l with
  | none => exact absurd ((countTagL_eq_zero_iff name l).mpr hf) h
  | some r =>
    obtain ⟨a, c, rfl⟩ := firstElemL_shape name l r hf
    exact ⟨a, c, rfl⟩

/-! C5 support, last part: the swap and the preparation stage. -/

lemma countTagL_swap (nm : String) (l : List Node) :
    countTagL nm (swap_stylesheets l) = countTagL nm l := by
  unfold swap_stylesheets
  cases h1 : findIdxL isAltLink l with
  | none => rfl
  | some j =>
    cases h2 : findIdxL isStylesheetLink l with
    | none => rfl
    | some i => simp [countTagL_setAt]

lemma countViewportL_swap (l : List Node) :
    countViewportL (swap_stylesheets l) = countViewportL l := by
  unfold swap_stylesheets
  cases h1 : findIdxL isAltLink l with
  | none => rfl
  | some j =>
    cases h2 : findIdxL isStylesheetLink l with
    | none => rfl
    | some i =>
      rw [countViewportL_setAt _ (fun a => rfl), countViewportL_setAt _ (fun a => rfl)]

lemma prep_countTag (b : String) (doc : List Node) (nm : String) :
    countTagL nm (rewrite_prep b doc) = countTagL nm doc := by
  rw [show rewrite_prep b doc = swap_stylesheets
      (if countTagL "base" (rewrite_passes b doc) = 0 then rewrite_passes b doc
       else setBaseTargetL (rewrite_passes b doc)) from rfl]
  rw [countTagL_swap]
  split
  · simp [rewrite_passes, countTagL_mapAttrs]
  · rw [countTagL_setBaseTarget]
    simp [rewrite_passes, countTagL_mapAttrs]

lemma passes_countViewport (b : String) (l : List Node) :
    countViewportL (rewrite_passes b l) = countViewportL l := by
  unfold rewrite_passes
  rw [countViewportL_mapAttrs _ (fun a => rfl), countViewportL_mapAttrs _ (fun a => rfl),
    countViewportL_mapAttrs _ (fun a => rfl), countViewportL_mapAttrs _ (fun a => rfl),
    countViewportL_mapAttrs _ (fun a => rfl)]

lemma prep_countViewport (b : String) (doc : List Node) :
    countViewportL (rewrite_prep b doc) = countViewportL doc := by
  rw [show rewrite_prep b doc = swap_stylesheets
      (if countTagL "base" (rewrite_passes b doc) = 0 then rewrite_passes b doc
       else setBaseTargetL (rewrite_passes b doc)) from rfl]
  rw [countViewportL_swap]
  split
  · exact passes_countViewport b doc
  · rw [countViewportL_setBaseTarget]
    exact passes_countViewport b doc

lemma firstElem_base_mapAttrs (f : String → Attrs → Attrs) (hg : ∀ a0, f "base" a0 = a0)
    (l : List Node) (a : Attrs) (c : List Node)
    (h : firstElemL "base" l = some (.elem "base" a c)) :
    firstElemL "base" (mapAttrsList f l) = some (.elem "base" a (mapAttrsList f c)) := by
  rw [firstElemL_mapAttrs, h]
  simp [mapAttrsNode, hg a]

lemma firstElem_base_swap (l : List Node) (a : Attrs) (c : List Node)
    (h : firstElemL "base" l = some (.elem "base" a c)) :
    ∃ c2, firstElemL "base" (swap_stylesheets l) = some (.elem "base" a c2) := by
  unfold swap_stylesheets
  cases h1 : findIdxL isAltLink l with
  | none => exact ⟨c, h⟩
  | some j =>
    cases h2 : findIdxL isStylesheetLink l with
    | none => exact ⟨c, h⟩
    | some i =>
      obtain ⟨c2, hc2⟩ := firstElemL_setAt (relSetter "ONZIN") "base" (fun a0 => rfl) l i a c h
      obtain ⟨c3, hc3⟩ :=
        firstElemL_setAt (relSetter "stylesheet") "base" (fun a0 => rfl) _ j a c2 hc2
      exact ⟨c3, hc3⟩

lemma firstElem_base_prep (b : String) (doc : List Node) (a : Attrs) (c : List Node)
    (hcount : countTagL "base" doc ≠ 0)
    (h : firstElemL "base" doc = some (.elem "base" a c)) :
    ∃ c2, firstElemL "base" (rewrite_prep b doc) =
      some (.elem "base" (setAttr a "target" "_self") c2) := by
  have h1 := firstElem_base_mapAttrs (ruleA b) (fun a0 => rfl) doc a c h
  have h2 := firstElem_base_mapAttrs (ruleImg b) (fun a0 => rfl) _ a _ h1
  have h3 := firstElem_base_mapAttrs (ruleLink b) (fun a0 => rfl) _ a _ h2
  have h4 := firstElem_base_mapAttrs (ruleScript b) (fun a0 => rfl) _ a _ h3
  have h5 := firstElem_base_mapAttrs (ruleForm b) (fun a0 => rfl) _ a _ h4
  have hpasses : firstElemL "base" (rewrite_passes b doc) =
      some (.elem "base" a (mapAttrsList (ruleForm b) (mapAttrsList (ruleScript b)
        (mapAttrsList (ruleLink b) (mapAttrsList (ruleImg b) (mapAttrsList (ruleA b) c)))))) := h5
  have hcount1 : ¬ countTagL "base" (rewrite_passes b doc) = 0 := by
    rw [show countTagL "base" (rewrite_passes b doc) = countTagL "base" doc from by
      simp [rewrite_passes, countTagL_mapAttrs]]
    exact hcount
  have ht2 := firstElemL_setBaseTarget _ _ _ hpasses
  rw [show rewrite_prep b doc = swap_stylesheets
      (if countTagL "base" (rewrite_passes b doc) = 0 then rewrite_passes b doc
       else setBaseTargetL (rewrite_passes b doc)) from rfl]
  rw [if_neg hcount1]
  exact firstElem_base_swap _ _ _ ht2

/-- C5, counterexample: on a document with neither a base tag, a head nor
an html element — the `html.parser` tree of `<p>x</p>` — the rewriter
inserts nothing: the output has no base tag at all and no viewport meta
tag, refuting the claim for that input. -/
theorem c5_counterexample :
    countTagL "base"
        (rewrite_html_tree "https://example.com/" [Node.elem "p" [] [Node.text "x"]]) = 0 ∧
      countViewportL
        (rewrite_html_tree "https://example.com/" [Node.elem "p" [] [Node.text "x"]]) = 0 :=
  ⟨by decide, by decide⟩

/-- C5, amended: (1) if a base tag exists, the first one gets
`target="_self"`, no base or viewport is added; (2) if no base exists but
a head does, exactly one base is present afterwards, inserted with the
viewport meta at the start resp. end of the first head; (3) with no base
and no head but an html element, a synthesized head containing only the
base becomes the first child of the first html, with no viewport added;
(4) with neither base, head nor html, nothing is inserted. -/
theorem c5_base_viewport_amended (doc : List Node) (base_url : String) :
    (countTagL "base" doc ≠ 0 →
      countTagL "base" (rewrite_html_tree base_url doc) = countTagL "base" doc ∧
      countViewportL (rewrite_html_tree base_url doc) = countViewportL doc ∧
      ∃ a c2, firstElemL "base" (rewrite_html_tree base_url doc) = some (.elem "base" a c2) ∧
        getAttr a "target" = some "_self") ∧
    (countTagL "base" doc = 0 → countTagL "head" doc ≠ 0 →
      countTagL "base" (rewrite_html_tree base_url doc) = 1 ∧
      countViewportL (rewrite_html_tree base_url doc) = countViewportL doc + 1 ∧
      ∃ a cs, firstElemL "head" (rewrite_html_tree base_url doc) =
        some (.elem "head" a (newBaseTag :: (cs ++ [newMetaTag])))) ∧
    (countTagL "base" doc = 0 → countTagL "head" doc = 0 → countTagL "html" doc ≠ 0 →
      countTagL "base" (rewrite_html_tree base_url doc) = 1 ∧
      countViewportL (rewrite_html_tree base_url doc) = countViewportL doc ∧
      countTagL "head" (rewrite_html_tree base_url doc) = 1 ∧
      ∃ a cs, firstElemL "html" (rewrite_html_tree base_url doc) =
        some (.elem "html" a (Node.elem "head" [] [newBaseTag] :: cs))) ∧
    (countTagL "base" doc = 0 → countTagL "head" doc = 0 → countTagL "html" doc = 0 →
      countTagL "base" (rewrite_html_tree base_url doc) = 0 ∧
      countViewportL (rewrite_html_tree base_url doc) = countViewportL doc) := by
  have hPb := prep_countTag base_url doc "base"
  have hPh := prep_countTag base_url doc "head"
  have hPm := prep_countTag base_url doc "html"
  have hPv := prep_countViewport base_url doc
  have hout : rewrite_html_tree base_url doc =
      (if countTagL "base" (rewrite_prep base_url doc) = 0 then
        if countTagL "head" (rewrite_prep base_url doc) ≠ 0 then
          insertIntoHeadL (rewrite_prep base_url doc)
        else if countTagL "html" (rewrite_prep base_url doc) ≠ 0 then
          insertHeadIntoHtmlL (rewrite_prep base_url doc)
        else rewrite_prep base_url doc
      else rewrite_prep base_url doc) := rfl
  refine ⟨?_, ?_, ?_, ?_⟩
  · intro hb
    have hb2 : ¬ countTagL "base" (rewrite_prep base_url doc) = 0 := by rw [hPb]; exact hb
    rw [hout, if_neg hb2]
    refine ⟨hPb, hPv, ?_⟩
    obtain ⟨a, c, hf⟩ := firstElemL_of_count "base" doc hb
    obtain ⟨c2, hc2⟩ := firstElem_base_prep base_url doc a c hb hf
    exact ⟨setAttr a "target" "_self", c2, hc2, getAttr_setAttr a "target" "_self"⟩
  · intro hb hh
    have hb2 : countTagL "base" (rewrite_prep base_url doc) = 0 := by rw [hPb]; exact hb
    have hh2 : countTagL "head" (rewrite_prep base_url doc) ≠ 0 := by rw [hPh]; exact hh
    rw [hout, if_pos hb2, if_pos hh2]
    refine ⟨?_, ?_, ?_⟩
    · rw [countTagL_insertIntoHead "base" _ hh2, hPb, hb,
        show countTagN "base" newBaseTag = 1 from rfl,
        show countTagN "base" newMetaTag = 0 from rfl]
    · rw [countViewportL_insertIntoHead _ hh2, hPv]
    · obtain ⟨a, c, hf⟩ := firstElemL_of_count "head" _ hh2
      exact ⟨a, c, firstElemL_insertIntoHead _ a c hf⟩
  · intro hb hh hm
    have hb2 : countTagL "base" (rewrite_prep base_url doc) = 0 := by rw [hPb]; exact hb
    have hh2 : countTagL "head" (rewrite_prep base_url doc) = 0 := by rw [hPh]; exact hh
    have hm2 : countTagL "html" (rewrite_prep base_url doc) ≠ 0 := by rw [hPm]; exact hm
    rw [hout, if_pos hb2, if_neg (by simp [hh2]), if_pos hm2]
    refine ⟨?_, ?_, ?_, ?_⟩
    · rw [countTagL_insertHeadIntoHtml "base" _ hm2, hPb, hb,
        show countTagN "base" (Node.elem "head" [] [newBaseTag]) = 1 from rfl]
    · rw [countViewportL_insertHeadIntoHtml _ hm2, hPv]
    · rw [countTagL_insertHeadIntoHtml "head" _ hm2, hPh, hh,
        show countTagN "head" (Node.elem "head" [] [newBaseTag]) = 1 from rfl]
    · obtain ⟨a, c, hf⟩ := firstElemL_of_count "html" _ hm2
      exact ⟨a, c, firstElemL_insertHeadIntoHtml _ a c hf⟩
  · intro hb hh hm
    have hb2 : countTagL "base" (rewrite_prep base_url doc) = 0 := by rw [hPb]; exact hb
    have hh2 : countTagL "head" (rewrite_prep base_url doc) = 0 := by rw [hPh]; exact hh
    have hm2 : countTagL "html" (rewrite_prep base_url doc) = 0 := by rw [hPm]; exact hm
    rw [hout, if_pos hb2, if_neg (by simp [hh2]), if_neg (by simp [hm2])]
    exact ⟨hPb.trans hb, hPv⟩

/-- C5, witness: a document with a head and no base receives exactly one
base tag and one additional viewport meta tag. -/
theorem c5_witness :
    countTagL "base" [Node.elem "html" [] [Node.elem "head" [] [], Node.elem "body" [] []]] = 0 ∧
      countTagL "head" [Node.elem "html" [] [Node.elem "head" [] [], Node.elem "body" [] []]] ≠ 0 ∧
      countTagL "base" (rewrite_html_tree "https://example.com/"
        [Node.elem "html" [] [Node.elem "head" [] [], Node.elem "body" [] []]]) = 1 ∧
      countViewportL (rewrite_html_tree "https://example.com/"
        [Node.elem "html" [] [Node.elem "head" [] [], Node.elem "body" [] []]]) =
        countViewportL [Node.elem "html" [] [Node.elem "head" [] [], Node.elem "body" [] []]]
          + 1 := by
  have h := (c5_base_viewport_amended
    [Node.elem "html" [] [Node.elem "head" [] [], Node.elem "body" [] []]]
    "https://example.com/").2.1 (by decide) (by decide)
  exact ⟨by decide, by decide, h.1, h.2.1⟩

end CachingProxy
